import Mathlib

/-!
Verification of the core of the `lib-cfg` configuration/command library
(`src/cfg.cpp`, `src/cfg.hpp`) against its natural-language specification.

The C++ code is shallowly embedded: C strings become `List Char`, 64-bit
integers become `Int` with explicit wrapping modulo `2 ^ 64` where the code
relies on it, `double` values become `ℚ` (the code only compares and copies
them; no rounding arithmetic is performed on the paths modelled here), and
fallible operations return a `Bool` success flag next to the updated state,
as the C++ functions do.
-/

namespace LibCfg

/-! ### Character helpers (cfg.cpp) -/

/-- `isWhitespace` from cfg.cpp line 496: true for anything at or below the
ASCII space character (32).  We restrict the model to the ASCII fragment. -/
def isWhitespace (c : Char) : Bool := c.toNat ≤ 32

/-- An ASCII lower- or upper-case letter, as tested by the range comparisons
in `CVarManagerImpl::isValidCVarName`. -/
def isLetterChar (c : Char) : Bool :=
  (97 ≤ c.toNat && c.toNat ≤ 122) || (65 ≤ c.toNat && c.toNat ≤ 90)

/-- An ASCII decimal digit, as tested by the range comparisons in
`CVarManagerImpl::isValidCVarName`. -/
def isDigitChar (c : Char) : Bool := 48 ≤ c.toNat && c.toNat ≤ 57

/-! ### C5: `CVarManagerImpl::isValidCVarName` (cfg.cpp lines 2453-2526)

The `while` loop walks the name with an index; on a `.` or `_` it consumes
the FOLLOWING character as well, checking it against the allowed follower
set, and that follower is never re-examined by the loop. -/

/-- Body loop of `isValidCVarName`: everything after the first character.
Mirrors the index-advancing `while` loop of cfg.cpp lines 2479-2522. -/
def validNameBody : List Char → Bool
  | [] => true
  | c :: rest =>
    if isDigitChar c || isLetterChar c then validNameBody rest
    else if c ≠ '.' && c ≠ '_' then false
    else if c = '.' then
      match rest with
      | [] => false
      | c2 :: rest2 =>
        if isLetterChar c2 || c2 = '_' then validNameBody rest2 else false
    else
      match rest with
      | [] => false
      | c2 :: rest2 =>
        if isDigitChar c2 || isLetterChar c2 || c2 = '_' || c2 = '.' then
          validNameBody rest2
        else false

/-- `CVarManagerImpl::isValidCVarName`: empty names are rejected, the first
character must be a letter or an underscore, then the body loop runs. -/
def isValidCVarName (s : List Char) : Bool :=
  match s with
  | [] => false
  | c :: rest => if isLetterChar c || c = '_' then validNameBody rest else false

/-- The naming rule exactly as the specification words it: every character
after the first is a letter, digit, underscore or dot, and every dot is
followed by a letter or underscore and never ends the name. -/
def specNameBody : List Char → Bool
  | [] => true
  | c :: rest =>
    (isLetterChar c || isDigitChar c || c = '_' || c = '.') &&
    (if c = '.' then
        match rest with
        | [] => false
        | c2 :: _ => (isLetterChar c2 || c2 = '_') && specNameBody rest
      else specNameBody rest)

/-- The full naming rule from the specification: first character a letter or
underscore, and `specNameBody` for the remainder. -/
def specValidCVarName (s : List Char) : Bool :=
  match s with
  | [] => false
  | c :: rest => (isLetterChar c || c = '_') && specNameBody rest

/-- The grammar the validator actually accepts, as an inductive description:
after a dot the immediately following character must be a letter or an
underscore, after an underscore it must be a letter, digit, underscore or
dot, and in both cases that follower is consumed together with the special
character and never re-examined. -/
inductive BodyAccepted : List Char → Prop
  | nil : BodyAccepted []
  | plain {c : Char} {rest : List Char} :
      (isDigitChar c || isLetterChar c) = true →
      BodyAccepted rest → BodyAccepted (c :: rest)
  | dot {c2 : Char} {rest : List Char} :
      (isLetterChar c2 || c2 = '_') = true →
      BodyAccepted rest → BodyAccepted ('.' :: c2 :: rest)
  | und {c2 : Char} {rest : List Char} :
      (isDigitChar c2 || isLetterChar c2 || c2 = '_' || c2 = '.') = true →
      BodyAccepted rest → BodyAccepted ('_' :: c2 :: rest)

theorem vnb_nil : validNameBody [] = true := by simp [validNameBody]

theorem vnb_alnum (c : Char) (rest : List Char)
    (h : (isDigitChar c || isLetterChar c) = true) :
    validNameBody (c :: rest) = validNameBody rest := by
  rw [validNameBody.eq_def]
  simp [h]

theorem vnb_bad (c : Char) (rest : List Char)
    (h1 : (isDigitChar c || isLetterChar c) = false) (h2 : c ≠ '.') (h3 : c ≠ '_') :
    validNameBody (c :: rest) = false := by
  rw [validNameBody.eq_def]
  simp [h1, h2, h3]

theorem vnb_dot_nil : validNameBody ['.'] = false := by decide

theorem vnb_dot_good (c2 : Char) (rest2 : List Char)
    (h : (isLetterChar c2 || c2 = '_') = true) :
    validNameBody ('.' :: c2 :: rest2) = validNameBody rest2 := by
  simp [validNameBody, h, (by decide : (isDigitChar '.' || isLetterChar '.') = false)]

theorem vnb_dot_bad (c2 : Char) (rest2 : List Char)
    (h : (isLetterChar c2 || c2 = '_') = false) :
    validNameBody ('.' :: c2 :: rest2) = false := by
  simp [validNameBody, h, (by decide : (isDigitChar '.' || isLetterChar '.') = false)]

theorem vnb_und_nil : validNameBody ['_'] = false := by decide

theorem vnb_und_good (c2 : Char) (rest2 : List Char)
    (h : (isDigitChar c2 || isLetterChar c2 || c2 = '_' || c2 = '.') = true) :
    validNameBody ('_' :: c2 :: rest2) = validNameBody rest2 := by
  simp [validNameBody, h, (by decide : (isDigitChar '_' || isLetterChar '_') = false)]

theorem vnb_und_bad (c2 : Char) (rest2 : List Char)
    (h : (isDigitChar c2 || isLetterChar c2 || c2 = '_' || c2 = '.') = false) :
    validNameBody ('_' :: c2 :: rest2) = false := by
  simp [validNameBody, h, (by decide : (isDigitChar '_' || isLetterChar '_') = false)]

theorem validNameBody_iff_bodyAccepted (s : List Char) :
    validNameBody s = true ↔ BodyAccepted s := by
  induction s using validNameBody.induct with
  | case1 => exact iff_of_true vnb_nil BodyAccepted.nil
  | case2 c rest hc ih =>
    rw [vnb_alnum c rest hc]
    constructor
    · intro h; exact BodyAccepted.plain hc (ih.mp h)
    · intro h
      cases h with
      | plain _ h2 => exact ih.mpr h2
      | dot h1 h2 => exact absurd hc (by decide)
      | und h1 h2 => exact absurd hc (by decide)
  | case3 c rest hnc hbad =>
    have hb : c ≠ '.' ∧ c ≠ '_' := by simpa using hbad
    rw [vnb_bad c rest (by simpa using hnc) hb.1 hb.2]
    constructor
    · intro h; exact absurd h (by simp)
    · intro h
      cases h with
      | plain h1 _ => exact absurd h1 hnc
      | dot h1 _ => exact absurd rfl hb.1
      | und h1 _ => exact absurd rfl hb.2
  | case4 =>
    rw [vnb_dot_nil]
    constructor
    · intro h; exact absurd h (by simp)
    · intro h
      cases h with
      | plain h1 _ => exact absurd h1 (by decide)
  | case5 c2 rest2 hgood h1 h2 ih =>
    rw [vnb_dot_good c2 rest2 hgood]
    constructor
    · intro h; exact BodyAccepted.dot hgood (ih.mp h)
    · intro h
      cases h with
      | plain hp _ => exact absurd hp (by decide)
      | dot _ hb => exact ih.mpr hb
  | case6 c2 rest2 hngood h1 h2 =>
    rw [vnb_dot_bad c2 rest2 (by simpa using hngood)]
    constructor
    · intro h; exact absurd h (by simp)
    · intro h
      cases h with
      | plain hp _ => exact absurd hp (by decide)
      | dot hg _ => exact absurd hg hngood
  | case7 c hnc hnbad hnd =>
    have hc : c = '_' := by
      simp only [ne_eq, Bool.and_eq_true, decide_eq_true_eq, not_and_or, not_not] at hnbad
      tauto
    subst hc
    rw [vnb_und_nil]
    constructor
    · intro h; exact absurd h (by simp)
    · intro h
      cases h with
      | plain h1 _ => exact absurd h1 (by decide)
  | case8 c hnc hnbad hnd c21 rest2 hgood ih =>
    have hc : c = '_' := by
      simp only [ne_eq, Bool.and_eq_true, decide_eq_true_eq, not_and_or, not_not] at hnbad
      tauto
    subst hc
    rw [vnb_und_good c21 rest2 hgood]
    constructor
    · intro h; exact BodyAccepted.und hgood (ih.mp h)
    · intro h
      cases h with
      | plain hp _ => exact absurd hp (by decide)
      | und _ hb => exact ih.mpr hb
  | case9 c hnc hnbad hnd c21 rest2 hngood =>
    have hc : c = '_' := by
      simp only [ne_eq, Bool.and_eq_true, decide_eq_true_eq, not_and_or, not_not] at hnbad
      tauto
    subst hc
    rw [vnb_und_bad c21 rest2 (by simpa using hngood)]
    constructor
    · intro h; exact absurd h (by simp)
    · intro h
      cases h with
      | plain hp _ => exact absurd hp (by decide)
      | und hg _ => exact absurd hg hngood

/-- C5, counterexample: the validator accepts the name `a_.` although the
specification's naming rule rejects it (the dot ends the name), because the
character following an underscore is consumed without being re-examined. -/
theorem C5_counterexample :
    isValidCVarName ['a', '_', '.'] = true ∧
      specValidCVarName ['a', '_', '.'] = false := by decide

/-- C5 (amended): `isValidCVarName` accepts a string exactly when it is
non-empty, its first character is a letter or underscore, and its remainder
satisfies the follower discipline the code implements: a dot must be
immediately followed by a letter or underscore, an underscore must be
immediately followed by a letter, digit, underscore or dot, every character
scanned on its own must be a letter or digit, and the character that follows
a dot or underscore is consumed together with it and never re-examined (so
it may itself end the name). -/
theorem C5_isValidCVarName_amended (s : List Char) :
    isValidCVarName s = true ↔
      ∃ c rest, s = c :: rest ∧ (isLetterChar c || c = '_') = true ∧
        BodyAccepted rest := by
  match s with
  | [] =>
    constructor
    · intro h; exact absurd h (by simp [isValidCVarName])
    · rintro ⟨c, rest, h, -, -⟩; exact absurd h (by simp)
  | c :: rest =>
    rw [isValidCVarName]
    constructor
    · intro h
      by_cases hc : (isLetterChar c || c = '_') = true
      · rw [if_pos hc] at h
        exact ⟨c, rest, rfl, hc, (validNameBody_iff_bodyAccepted rest).mp h⟩
      · rw [if_neg hc] at h
        exact absurd h (by simp)
    · rintro ⟨c2, rest2, heq, hc, hb⟩
      obtain ⟨rfl, rfl⟩ : c = c2 ∧ rest = rest2 := by
        constructor <;> [exact (List.cons.injEq _ _ _ _ ▸ heq).1;
          exact (List.cons.injEq _ _ _ _ ▸ heq).2]
      rw [if_pos hc]
      exact (validNameBody_iff_bodyAccepted rest).mpr hb

/-! ### C6: integer ↔ string conversions

`intToString` (cfg.cpp lines 631-710) renders a `uint64` value in base 2, 8,
10 or 16; `cvarToInt64` on strings (cfg.cpp lines 1284-1299) parses with
`std::strtoll(nPtr, &endPtr, 0)` — note base 0, i.e. prefix-driven base
detection. -/

/-- Digit→character conversion from the main loop of `intToString`:
values above 9 become upper-case letters. -/
def digitChar (d : Nat) : Char :=
  if d > 9 then Char.ofNat (d - 10 + 65) else Char.ofNat (d + 48)

/-- The digit-emitting do-while loop of `intToString`, least significant
digit first.  Always emits at least one digit (do-while).  The 128-char
temp buffer cannot overflow for 64-bit values, so the overflow branch of
the source is unreachable on every input the library produces and is not
modelled.  The loop consumes at least one division step per iteration, so
`fuel := n` steps always suffice (`digitsRev` below supplies exactly that);
the fuel argument only makes the recursion structural. -/
def digitsRevFuel : Nat → Nat → Nat → List Char
  | 0, base, n => [digitChar (n % base)]
  | fuel + 1, base, n =>
    if n / base = 0 ∨ base ≤ 1 then [digitChar (n % base)]
    else digitChar (n % base) :: digitsRevFuel fuel base (n / base)

/-- The digit string of `n` in the given base, least significant first. -/
def digitsRev (base n : Nat) : List Char := digitsRevFuel n base n

/-- `intToString` (cfg.cpp line 631): hexadecimal output gets an `0x`
prefix; negative decimal output gets a `-` and the value is negated in
uint64 arithmetic; other bases render the raw uint64 digits.  A bad base
yields the empty string (after reporting an error). -/
def intToString (number : Nat) (base : Nat) (isNegative : Bool) : List Char :=
  if ¬(base = 2 ∨ base = 8 ∨ base = 10 ∨ base = 16) then []
  else if base = 16 then '0' :: 'x' :: (digitsRev 16 number).reverse
  else if isNegative ∧ base = 10 then
    '-' :: (digitsRev 10 ((2 ^ 64 - number % 2 ^ 64) % 2 ^ 64)).reverse
  else (digitsRev base number).reverse

/-- The `NumberFormat` enumeration of `CVar` (cfg.hpp). -/
inductive NumberFormat
  | binary
  | octal
  | decimal
  | hexadecimal
deriving DecidableEq

/-- The format→base mapping of `cvarToString` for int64 (cfg.cpp 1346). -/
def baseOfFormat : NumberFormat → Nat
  | .binary => 2
  | .octal => 8
  | .decimal => 10
  | .hexadecimal => 16

/-- Casting an int64 value to uint64 (two's complement). -/
def toUInt64Model (v : Int) : Nat := (v % (2 : Int) ^ 64).toNat

/-- `cvarToString` for `std::int64_t` (cfg.cpp lines 1346-1361). -/
def cvarIntToString (v : Int) (fmt : NumberFormat) : List Char :=
  intToString (toUInt64Model v) (baseOfFormat fmt) (v < 0)

/-- Characters accepted by `std::isspace` in the C locale. -/
def isSpaceC (c : Char) : Bool :=
  c = ' ' || c = '\t' || c = '\n' || c.toNat = 11 || c.toNat = 12 || c = '\r'

/-- Value of a hexadecimal digit character, if it is one. -/
def hexDigitVal (c : Char) : Option Nat :=
  if isDigitChar c then some (c.toNat - 48)
  else if 97 ≤ c.toNat && c.toNat ≤ 102 then some (c.toNat - 87)
  else if 65 ≤ c.toNat && c.toNat ≤ 70 then some (c.toNat - 55)
  else none

/-- Value of a digit character in the given base, if valid there. -/
def digitValIn (base : Nat) (c : Char) : Option Nat :=
  match hexDigitVal c with
  | some d => if d < base then some d else none
  | none => none

/-- Greedy digit scan: accumulated value, number of digits consumed, and
the unconsumed remainder. -/
def takeDigitsAcc (base acc : Nat) : List Char → Nat × Nat × List Char
  | [] => (acc, 0, [])
  | c :: rest =>
    match digitValIn base c with
    | some d =>
      let r := takeDigitsAcc base (acc * base + d) rest
      (r.1, r.2.1 + 1, r.2.2)
    | none => (acc, 0, c :: rest)

/-- Longest digit run at the front of the string; `none` when there is no
digit at all (strtoll reports `endPtr == nPtr`). -/
def parseDigitRun (base : Nat) (s : List Char) : Option Nat :=
  let t := takeDigitsAcc base 0 s
  if t.2.1 = 0 then none else some t.1

/-- Clamping to the `long long` range, as strtoll does on overflow. -/
def clampInt64 (v : Int) : Int :=
  if v > 2 ^ 63 - 1 then 2 ^ 63 - 1
  else if v < -(2 ^ 63) then -(2 ^ 63)
  else v

/-- Base detection and digit consumption of strtoll with base 0, after
whitespace and sign handling: `0x`/`0X` followed by a hex digit → base 16,
a leading `0` → base 8, anything else → base 10; greedy digit consumption,
clamping to the int64 range on overflow. -/
def strtollDetect (sgn : Int) : List Char → Option Int
  | '0' :: x :: r2 =>
    if ((x = 'x' || x = 'X') &&
        (match r2 with
          | c :: _ => (digitValIn 16 c).isSome
          | [] => false)) = true then
      (parseDigitRun 16 r2).map (fun m => clampInt64 (sgn * m))
    else
      (parseDigitRun 8 ('0' :: x :: r2)).map (fun m => clampInt64 (sgn * m))
  | r => (parseDigitRun 10 r).map (fun m => clampInt64 (sgn * m))

/-- Model of `std::strtoll(nPtr, &endPtr, 0)` on the ASCII fragment:
optional leading whitespace, an optional sign, then base detection and
digits.  Returns `none` exactly when no digit was consumed, which is the
`endPtr == nPtr` failure `cvarToInt64` checks for. -/
def strtollModel (s : List Char) : Option Int :=
  let s1 := s.dropWhile isSpaceC
  let sgn : Int := if s1.head? = some '-' then -1 else 1
  let s2 := if s1.head? = some '-' ∨ s1.head? = some '+' then s1.tail else s1
  strtollDetect sgn s2

/-- `cvarToInt64` on a string (cfg.cpp lines 1284-1299): `strtoll` with
base 0; `none` models the error path (which reports and yields 0 with the
ok-flag cleared). -/
def cvarStringToInt64 (s : List Char) : Option Int := strtollModel s

/-- The int→string→int round trip of claim C6: render the value under the
format, then parse the result back the way a string assignment to an Int
CVar does. -/
def intStringRoundTrip (v : Int) (fmt : NumberFormat) : Option Int :=
  cvarStringToInt64 (cvarIntToString v fmt)

theorem lt_of_div_eq_zeroN {n b : Nat} (hb : 0 < b) (h : n / b = 0) : n < b := by
  rcases Nat.lt_or_ge n b with hlt | hge
  · exact hlt
  · have h1 : 1 ≤ n / b := (Nat.one_le_div_iff hb).mpr hge
    omega

theorem digitValIn_digitChar {b d : Nat} (hb : b ≤ 16) (hd : d < b) :
    digitValIn b (digitChar d) = some d := by
  have h16 : hexDigitVal (digitChar d) = some d := by
    have : ∀ e, e < 16 → hexDigitVal (digitChar e) = some e := by decide
    exact this d (lt_of_lt_of_le hd hb)
  rw [digitValIn, h16]
  simp [hd]

theorem digitChar_plain {d : Nat} (hd : d < 16) :
    isSpaceC (digitChar d) = false ∧ digitChar d ≠ '-' ∧ digitChar d ≠ '+' := by
  have : ∀ e, e < 16 →
      (isSpaceC (digitChar e) = false ∧ digitChar e ≠ '-' ∧ digitChar e ≠ '+') := by decide
  exact this d hd

theorem digitChar_ne_zeroChar {d : Nat} (h1 : 1 ≤ d) (hd : d < 16) :
    digitChar d ≠ '0' := by
  have : ∀ e, 1 ≤ e → e < 16 → digitChar e ≠ '0' := by decide
  exact this d h1 hd

theorem digitsRevFuel_ne_nil (fuel b n : Nat) : digitsRevFuel fuel b n ≠ [] := by
  cases fuel with
  | zero => simp [digitsRevFuel]
  | succ f => rw [digitsRevFuel]; split <;> simp

theorem digitsRev_ne_nil (b n : Nat) : digitsRev b n ≠ [] :=
  digitsRevFuel_ne_nil n b n

theorem digitsRevFuel_mem {b : Nat} (hb : 2 ≤ b) :
    ∀ fuel n, ∀ c ∈ digitsRevFuel fuel b n, ∃ d, d < b ∧ c = digitChar d := by
  intro fuel
  induction fuel with
  | zero =>
    intro n c hc
    exact ⟨n % b, Nat.mod_lt _ (by omega), by simpa [digitsRevFuel] using hc⟩
  | succ f ih =>
    intro n c hc
    rw [digitsRevFuel] at hc
    split at hc
    · exact ⟨n % b, Nat.mod_lt _ (by omega), by simpa using hc⟩
    · rcases List.mem_cons.mp hc with h | h
      · exact ⟨n % b, Nat.mod_lt _ (by omega), h⟩
      · exact ih (n / b) c h

theorem digitsRev_mem {b : Nat} (hb : 2 ≤ b) (n : Nat) :
    ∀ c ∈ digitsRev b n, ∃ d, d < b ∧ c = digitChar d :=
  digitsRevFuel_mem hb n n

/-- The leading digit of a positive value is non-zero. -/
theorem digitsRevFuel_head {b : Nat} (hb : 2 ≤ b) :
    ∀ fuel n, n ≤ fuel → 1 ≤ n → ∃ d, 1 ≤ d ∧ d < b ∧
      ((digitsRevFuel fuel b n).reverse).head? = some (digitChar d) := by
  intro fuel
  induction fuel with
  | zero => intro n hn h1; omega
  | succ f ih =>
    intro n hn h1
    rw [digitsRevFuel]
    split
    · rename_i hcond
      have hdiv : n / b = 0 := by rcases hcond with h | h; exacts [h, by omega]
      have hlt : n < b := lt_of_div_eq_zeroN (by omega) hdiv
      refine ⟨n, h1, hlt, ?_⟩
      rw [Nat.mod_eq_of_lt hlt]
      simp
    · rename_i hcond
      push_neg at hcond
      have hq : 1 ≤ n / b := Nat.pos_of_ne_zero hcond.1
      obtain ⟨d, hd1, hd2, hd3⟩ := ih (n / b)
        (by have := Nat.div_lt_self (by omega : 0 < n) (by omega : 1 < b); omega) hq
      refine ⟨d, hd1, hd2, ?_⟩
      rw [List.reverse_cons, List.head?_append, hd3]
      simp

theorem digitsRev_head {b : Nat} (hb : 2 ≤ b) (n : Nat) (h1 : 1 ≤ n) :
    ∃ d, 1 ≤ d ∧ d < b ∧
      ((digitsRev b n).reverse).head? = some (digitChar d) :=
  digitsRevFuel_head hb n n le_rfl h1

theorem takeDigitsAcc_all {b : Nat} :
    ∀ (l : List Char) (acc : Nat), (∀ c ∈ l, (digitValIn b c).isSome) →
      takeDigitsAcc b acc l =
        (l.foldl (fun a c => a * b + (digitValIn b c).getD 0) acc, l.length, []) := by
  intro l
  induction l with
  | nil => intro acc _; simp [takeDigitsAcc]
  | cons c rest ih =>
    intro acc h
    have hc : (digitValIn b c).isSome := h c (by simp)
    obtain ⟨d, hd⟩ := Option.isSome_iff_exists.mp hc
    rw [takeDigitsAcc, hd]
    dsimp only
    have hrec := ih (acc * b + d) (fun x hx => h x (by simp [hx]))
    rw [hrec]
    simp [hd]

/-- Reading the rendered digit string back in the same base recovers the
value. -/
theorem foldl_digitsRevFuel_self {b : Nat} (hb : 2 ≤ b) (hb16 : b ≤ 16) :
    ∀ fuel n, n ≤ fuel → ((digitsRevFuel fuel b n).reverse).foldl
        (fun a c => a * b + (digitValIn b c).getD 0) 0 = n := by
  intro fuel
  induction fuel with
  | zero =>
    intro n hn
    have hz : n = 0 := by omega
    subst hz
    simp [digitsRevFuel, digitValIn_digitChar hb16 (show (0 : Nat) < b by omega)]
  | succ f ih =>
    intro n hn
    rw [digitsRevFuel]
    split
    · rename_i hcond
      have hdiv : n / b = 0 := by rcases hcond with h | h; exacts [h, by omega]
      have hlt : n < b := lt_of_div_eq_zeroN (by omega) hdiv
      rw [Nat.mod_eq_of_lt hlt]
      simp [digitValIn_digitChar hb16 hlt]
    · rename_i hcond
      push_neg at hcond
      have hn0 : 0 < n := Nat.pos_of_ne_zero (fun he => hcond.1 (by simp [he]))
      rw [List.reverse_cons, List.foldl_append,
        ih (n / b) (by have := Nat.div_lt_self hn0 (show 1 < b by omega); omega)]
      simp only [List.foldl_cons, List.foldl_nil,
        digitValIn_digitChar hb16 (Nat.mod_lt n (by omega)), Option.getD_some]
      rw [Nat.mul_comm]
      exact Nat.div_add_mod n b

theorem foldl_digitsRev_self {b : Nat} (hb : 2 ≤ b) (hb16 : b ≤ 16) (n : Nat) :
    ((digitsRev b n).reverse).foldl
      (fun a c => a * b + (digitValIn b c).getD 0) 0 = n :=
  foldl_digitsRevFuel_self hb hb16 n n le_rfl

/-- Reading base-`b` digits (`b ≤ 8`) back as decimal dominates the value,
strictly when the value needed at least two digits. -/
theorem foldl_digitsRevFuel_decimal {b : Nat} (hb : 2 ≤ b) (hb8 : b ≤ 8) :
    ∀ fuel n, n ≤ fuel →
      n ≤ ((digitsRevFuel fuel b n).reverse).foldl
        (fun a c => a * 10 + (digitValIn 10 c).getD 0) 0 ∧
      (b ≤ n → n < ((digitsRevFuel fuel b n).reverse).foldl
        (fun a c => a * 10 + (digitValIn 10 c).getD 0) 0) := by
  intro fuel
  induction fuel with
  | zero =>
    intro n hn
    have hz : n = 0 := by omega
    subst hz
    constructor
    · simp
    · intro hge; omega
  | succ f ih =>
    intro n hn
    rw [digitsRevFuel]
    split
    · rename_i hcond
      have hdiv : n / b = 0 := by rcases hcond with h | h; exacts [h, by omega]
      have hlt : n < b := lt_of_div_eq_zeroN (by omega) hdiv
      have hv : digitValIn 10 (digitChar n) = some n :=
        digitValIn_digitChar (by omega) (by omega)
      constructor
      · simp [Nat.mod_eq_of_lt hlt, hv]
      · intro hge; omega
    · rename_i hcond
      push_neg at hcond
      have hn0 : 0 < n := Nat.pos_of_ne_zero (fun he => hcond.1 (by simp [he]))
      have hq : 1 ≤ n / b := Nat.pos_of_ne_zero hcond.1
      have hih := (ih (n / b)
        (by have := Nat.div_lt_self hn0 (show 1 < b by omega); omega)).1
      have hv : digitValIn 10 (digitChar (n % b)) = some (n % b) :=
        digitValIn_digitChar (by omega)
          (Nat.lt_of_lt_of_le (Nat.mod_lt n (by omega)) (by omega))
      rw [List.reverse_cons, List.foldl_append]
      simp only [List.foldl_cons, List.foldl_nil, hv, Option.getD_some]
      set D := ((digitsRevFuel f b (n / b)).reverse).foldl
        (fun a c => a * 10 + (digitValIn 10 c).getD 0) 0 with hD
      have hmod : b * (n / b) + n % b = n := Nat.div_add_mod n b
      have h1 : b * (n / b) ≤ 8 * (n / b) :=
        Nat.mul_le_mul_right _ hb8
      have h2 : 10 * (n / b) ≤ 10 * D := Nat.mul_le_mul_left _ hih
      constructor
      · linarith
      · intro _
        linarith

theorem foldl_digitsRev_decimal {b : Nat} (hb : 2 ≤ b) (hb8 : b ≤ 8) (n : Nat) :
    n ≤ ((digitsRev b n).reverse).foldl
      (fun a c => a * 10 + (digitValIn 10 c).getD 0) 0 ∧
    (b ≤ n → n < ((digitsRev b n).reverse).foldl
      (fun a c => a * 10 + (digitValIn 10 c).getD 0) 0) :=
  foldl_digitsRevFuel_decimal hb hb8 n n le_rfl

theorem digitsRev_single {b n : Nat} (hb : 2 ≤ b) (hn : n < b) :
    digitsRev b n = [digitChar n] := by
  rw [digitsRev]
  cases n with
  | zero => simp [digitsRevFuel]
  | succ m =>
    rw [digitsRevFuel]
    rw [if_pos (Or.inl ((Nat.div_eq_zero_iff (by omega)).mpr hn))]
    rw [Nat.mod_eq_of_lt hn]

theorem strtollDetect_plain (sgn : Int) (c : Char) (cs : List Char)
    (hdig : ∀ x ∈ c :: cs, ∃ d, d < 10 ∧ x = digitChar d)
    (hz : c ≠ '0' ∨ cs = []) :
    strtollDetect sgn (c :: cs) = some (clampInt64 (sgn *
      ((c :: cs).foldl (fun a x => a * 10 + (digitValIn 10 x).getD 0) 0))) := by
  have hall : ∀ x ∈ c :: cs, (digitValIn 10 x).isSome := by
    intro x hx
    obtain ⟨d, hd, rfl⟩ := hdig x hx
    rw [digitValIn_digitChar (by omega) hd]
    simp
  have hrun : parseDigitRun 10 (c :: cs) = some
      ((c :: cs).foldl (fun a x => a * 10 + (digitValIn 10 x).getD 0) 0) := by
    rw [parseDigitRun, takeDigitsAcc_all _ 0 hall]
    simp
  rw [strtollDetect.eq_def]
  split
  · rename_i x r2 heq
    obtain ⟨he1, he2⟩ : c = '0' ∧ cs = x :: r2 := by
      constructor <;> [exact (List.cons.injEq _ _ _ _ ▸ heq).1;
        exact (List.cons.injEq _ _ _ _ ▸ heq).2]
    rcases hz with h | h
    · exact absurd he1 h
    · rw [h] at he2; exact absurd he2 (by simp)
  · rw [hrun]
    simp

theorem strtollDetect_hexDigits (sgn : Int) (c : Char) (cs : List Char)
    (hdig : ∀ x ∈ c :: cs, ∃ d, d < 16 ∧ x = digitChar d) :
    strtollDetect sgn ('0' :: 'x' :: c :: cs) = some (clampInt64 (sgn *
      ((c :: cs).foldl (fun a x => a * 16 + (digitValIn 16 x).getD 0) 0))) := by
  have hall : ∀ x ∈ c :: cs, (digitValIn 16 x).isSome := by
    intro x hx
    obtain ⟨d, hd, rfl⟩ := hdig x hx
    rw [digitValIn_digitChar (by omega) hd]
    simp
  have hrun : parseDigitRun 16 (c :: cs) = some
      ((c :: cs).foldl (fun a x => a * 16 + (digitValIn 16 x).getD 0) 0) := by
    rw [parseDigitRun, takeDigitsAcc_all _ 0 hall]
    simp
  have hcis : (digitValIn 16 c).isSome := hall c (by simp)
  rw [strtollDetect.eq_def]
  split
  · rename_i x r2 heq
    obtain ⟨he1, he2⟩ : x = 'x' ∧ r2 = c :: cs := by
      have h1 := (List.cons.injEq _ _ _ _ ▸ heq).2
      constructor <;> [exact (List.cons.injEq _ _ _ _ ▸ h1).1.symm;
        exact (List.cons.injEq _ _ _ _ ▸ h1).2.symm]
    subst he1
    subst he2
    rw [if_pos (by simp [hcis])]
    rw [hrun]
    simp
  · rename_i hno
    exact absurd rfl (hno 'x' (c :: cs))

theorem strtollModel_plainHead (c : Char) (cs : List Char)
    (hs : isSpaceC c = false) (hm : c ≠ '-') (hp : c ≠ '+') :
    strtollModel (c :: cs) = strtollDetect 1 (c :: cs) := by
  rw [strtollModel]
  simp [List.dropWhile_cons, hs, hm, hp]

theorem strtollModel_negHead (rest : List Char) :
    strtollModel ('-' :: rest) = strtollDetect (-1) rest := by
  rw [strtollModel]
  simp [List.dropWhile_cons, (by decide : isSpaceC '-' = false)]

/-- Parsing the rendered base-10 digit string recovers the value. -/
theorem strtollDetect_digitsRev10 (sgn : Int) (n : Nat) :
    strtollDetect sgn ((digitsRev 10 n).reverse) =
      some (clampInt64 (sgn * n)) := by
  obtain ⟨c, cs, hccs⟩ : ∃ c cs, (digitsRev 10 n).reverse = c :: cs := by
    cases hrev : (digitsRev 10 n).reverse with
    | nil =>
      exact absurd (by simpa using congrArg List.reverse hrev) (digitsRev_ne_nil 10 n)
    | cons a l => exact ⟨a, l, rfl⟩
  have hdig : ∀ x ∈ c :: cs, ∃ d, d < 10 ∧ x = digitChar d := by
    rw [← hccs]
    intro x hx
    exact digitsRev_mem (by norm_num) n x (List.mem_reverse.mp hx)
  have hz : c ≠ '0' ∨ cs = [] := by
    rcases Nat.lt_or_ge n 10 with hlt | hge
    · right
      rw [digitsRev_single (show 2 ≤ 10 by norm_num) hlt] at hccs
      simp only [List.reverse_singleton] at hccs
      exact (List.cons.injEq _ _ _ _ ▸ hccs).2.symm
    · left
      obtain ⟨d, hd1, hd2, hd3⟩ := @digitsRev_head 10 (by norm_num) n (by omega)
      rw [hccs] at hd3
      simp at hd3
      rw [hd3]
      exact digitChar_ne_zeroChar hd1 (by omega)
  rw [hccs, strtollDetect_plain sgn c cs hdig hz, ← hccs,
    foldl_digitsRev_self (by norm_num) (by norm_num) n]

/-- Parsing the rendered hexadecimal digit string recovers the value. -/
theorem strtollDetect_digitsRev16 (sgn : Int) (n : Nat) :
    strtollDetect sgn ('0' :: 'x' :: (digitsRev 16 n).reverse) =
      some (clampInt64 (sgn * n)) := by
  obtain ⟨c, cs, hccs⟩ : ∃ c cs, (digitsRev 16 n).reverse = c :: cs := by
    cases hrev : (digitsRev 16 n).reverse with
    | nil =>
      exact absurd (by simpa using congrArg List.reverse hrev) (digitsRev_ne_nil 16 n)
    | cons a l => exact ⟨a, l, rfl⟩
  have hdig : ∀ x ∈ c :: cs, ∃ d, d < 16 ∧ x = digitChar d := by
    rw [← hccs]
    intro x hx
    exact digitsRev_mem (by norm_num) n x (List.mem_reverse.mp hx)
  rw [hccs, strtollDetect_hexDigits sgn c cs hdig, ← hccs,
    foldl_digitsRev_self (by norm_num) (by norm_num) n]

theorem cvarIntToString_decimal_nonneg (v : Int) (h0 : 0 ≤ v) (h1 : v < 2 ^ 64) :
    cvarIntToString v NumberFormat.decimal = (digitsRev 10 v.toNat).reverse := by
  have hu : toUInt64Model v = v.toNat := by
    rw [toUInt64Model]
    omega
  rw [cvarIntToString, hu]
  show intToString v.toNat 10 (decide (v < 0)) = _
  rw [intToString, if_neg (by norm_num), if_neg (by norm_num),
    if_neg (by simp [decide_eq_true_iff]; omega)]

theorem cvarIntToString_decimal_neg (v : Int) (hlo : -(2 ^ 63) ≤ v) (hneg : v < 0) :
    cvarIntToString v NumberFormat.decimal = '-' :: (digitsRev 10 (-v).toNat).reverse := by
  have hu : toUInt64Model v = (v + 2 ^ 64).toNat := by
    rw [toUInt64Model]
    omega
  have hneg64 : ((2 ^ 64 : Nat) - (v + 2 ^ 64).toNat % 2 ^ 64) % 2 ^ 64 = (-v).toNat := by
    omega
  rw [cvarIntToString, hu]
  show intToString (v + 2 ^ 64).toNat 10 (decide (v < 0)) = _
  rw [intToString, if_neg (by norm_num), if_neg (by norm_num),
    if_pos (by simp [decide_eq_true_iff]; omega), hneg64]

theorem cvarIntToString_hex (v : Int) (h0 : 0 ≤ v) (h1 : v < 2 ^ 64) :
    cvarIntToString v NumberFormat.hexadecimal =
      '0' :: 'x' :: (digitsRev 16 v.toNat).reverse := by
  have hu : toUInt64Model v = v.toNat := by
    rw [toUInt64Model]
    omega
  rw [cvarIntToString, hu]
  show intToString v.toNat 16 (decide (v < 0)) = _
  rw [intToString, if_neg (by norm_num), if_pos rfl]

theorem cvarIntToString_smallBase (v : Int) (h0 : 0 ≤ v) (h1 : v < 2 ^ 64)
    (fmt : NumberFormat) (hf : fmt = NumberFormat.binary ∨ fmt = NumberFormat.octal) :
    cvarIntToString v fmt = (digitsRev (baseOfFormat fmt) v.toNat).reverse := by
  have hu : toUInt64Model v = v.toNat := by
    rw [toUInt64Model]
    omega
  rcases hf with rfl | rfl <;>
  · rw [cvarIntToString, hu]
    rw [intToString, if_neg (by simp [baseOfFormat]), if_neg (by simp [baseOfFormat]),
      if_neg (by simp [baseOfFormat])]

theorem digitsRev_reverse_shape {b : Nat} (hb : 2 ≤ b) (n : Nat) :
    ∃ d cs, d < b ∧ (digitsRev b n).reverse = digitChar d :: cs := by
  obtain ⟨c, cs, hccs⟩ : ∃ c cs, (digitsRev b n).reverse = c :: cs := by
    cases hrev : (digitsRev b n).reverse with
    | nil =>
      exact absurd (by simpa using congrArg List.reverse hrev) (digitsRev_ne_nil b n)
    | cons a l => exact ⟨a, l, rfl⟩
  have hcmem : c ∈ digitsRev b n :=
    List.mem_reverse.mp (hccs ▸ List.mem_cons_self c cs)
  obtain ⟨d, hd, rfl⟩ := digitsRev_mem hb n c hcmem
  exact ⟨d, cs, hd, hccs⟩

theorem strtollModel_digitsRev {b : Nat} (hb : 2 ≤ b) (hb16 : b ≤ 16) (n : Nat) :
    strtollModel ((digitsRev b n).reverse) =
      strtollDetect 1 ((digitsRev b n).reverse) := by
  obtain ⟨d, cs, hd, hccs⟩ := digitsRev_reverse_shape hb n
  have hplain := digitChar_plain (show d < 16 by omega)
  rw [hccs, strtollModel_plainHead _ _ hplain.1 hplain.2.1 hplain.2.2]

/-- Parsing base-2/base-8 output: the digits are re-read as decimal. -/
theorem strtollDetect_digitsRevSmall (sgn : Int) {b : Nat} (hb : 2 ≤ b)
    (hb8 : b ≤ 8) (n : Nat) :
    strtollDetect sgn ((digitsRev b n).reverse) =
      some (clampInt64 (sgn * (((digitsRev b n).reverse).foldl
        (fun a x => a * 10 + (digitValIn 10 x).getD 0) 0))) := by
  obtain ⟨c, cs, hccs⟩ : ∃ c cs, (digitsRev b n).reverse = c :: cs := by
    cases hrev : (digitsRev b n).reverse with
    | nil =>
      exact absurd (by simpa using congrArg List.reverse hrev) (digitsRev_ne_nil b n)
    | cons a l => exact ⟨a, l, rfl⟩
  have hdig : ∀ x ∈ c :: cs, ∃ d, d < 10 ∧ x = digitChar d := by
    rw [← hccs]
    intro x hx
    obtain ⟨d, hd, rfl⟩ := digitsRev_mem hb n x (List.mem_reverse.mp hx)
    exact ⟨d, by omega, rfl⟩
  have hz : c ≠ '0' ∨ cs = [] := by
    rcases Nat.lt_or_ge n b with hlt | hge
    · right
      rw [digitsRev_single hb hlt] at hccs
      simp only [List.reverse_singleton] at hccs
      exact (List.cons.injEq _ _ _ _ ▸ hccs).2.symm
    · left
      obtain ⟨d, hd1, hd2, hd3⟩ := @digitsRev_head b hb n (by omega)
      rw [hccs] at hd3
      simp at hd3
      rw [hd3]
      exact digitChar_ne_zeroChar hd1 (by omega)
  rw [hccs, strtollDetect_plain sgn c cs hdig hz, ← hccs]

theorem roundTrip_max_binary :
    intStringRoundTrip (2 ^ 63 - 1) NumberFormat.binary = some (2 ^ 63 - 1) := by
  decide

theorem roundTrip_max_octal :
    intStringRoundTrip (2 ^ 63 - 1) NumberFormat.octal = some (2 ^ 63 - 1) := by
  decide

/-- C6, counterexample: under the Binary format the value 2 renders as the
digit string `10`, which the strtoll base-0 parse reads back as the decimal
number ten, so assigning the string form back yields 10, not 2. -/
theorem C6_counterexample :
    intStringRoundTrip 2 NumberFormat.binary = some 10 ∧ (10 : Int) ≠ 2 := by
  constructor
  · decide
  · decide

/-- C6 (amended): the int→string→int round trip is exact under the Decimal
format for every int64 value (negative values included) and under the
Hexadecimal format for every non-negative int64 value (the `0x` prefix
makes the base-0 parse read hexadecimal).  Under Binary and Octal the
rendered digit string carries no base prefix and is re-read as decimal, so
the round trip holds exactly when the value is a single digit of that base,
or when it equals INT64_MAX (the decimal reading then overflows and strtoll
clamps back to INT64_MAX). -/
theorem C6_intStringRoundTrip_amended :
    (∀ v : Int, -(2 ^ 63) ≤ v → v ≤ 2 ^ 63 - 1 →
        intStringRoundTrip v NumberFormat.decimal = some v) ∧
    (∀ v : Int, 0 ≤ v → v ≤ 2 ^ 63 - 1 →
        intStringRoundTrip v NumberFormat.hexadecimal = some v) ∧
    (∀ v : Int, 0 ≤ v → v ≤ 2 ^ 63 - 1 →
      ∀ fmt, fmt = NumberFormat.binary ∨ fmt = NumberFormat.octal →
        (intStringRoundTrip v fmt = some v ↔
          (v < (baseOfFormat fmt : Int) ∨ v = 2 ^ 63 - 1))) := by
  refine ⟨?_, ?_, ?_⟩
  · intro v hlo hhi
    rcases le_or_lt 0 v with h0 | hneg
    · rw [intStringRoundTrip, cvarStringToInt64,
        cvarIntToString_decimal_nonneg v h0 (by omega),
        @strtollModel_digitsRev 10 (by norm_num) (by norm_num) v.toNat,
        strtollDetect_digitsRev10 1 v.toNat]
      have hv : (1 : Int) * (v.toNat : Int) = v := by omega
      rw [hv, clampInt64, if_neg (by omega), if_neg (by omega)]
    · rw [intStringRoundTrip, cvarStringToInt64,
        cvarIntToString_decimal_neg v hlo hneg,
        strtollModel_negHead, strtollDetect_digitsRev10 (-1) (-v).toNat]
      have hv : (-1 : Int) * ((-v).toNat : Int) = v := by omega
      rw [hv, clampInt64, if_neg (by omega), if_neg (by omega)]
  · intro v h0 hhi
    rw [intStringRoundTrip, cvarStringToInt64, cvarIntToString_hex v h0 (by omega),
      strtollModel_plainHead '0' _ (by decide) (by decide) (by decide),
      strtollDetect_digitsRev16 1 v.toNat]
    have hv : (1 : Int) * (v.toNat : Int) = v := by omega
    rw [hv, clampInt64, if_neg (by omega), if_neg (by omega)]
  · intro v h0 hhi fmt hf
    by_cases hmax : v = 2 ^ 63 - 1
    · subst hmax
      rcases hf with rfl | rfl
      · exact iff_of_true roundTrip_max_binary (Or.inr rfl)
      · exact iff_of_true roundTrip_max_octal (Or.inr rfl)
    · have hb2 : 2 ≤ baseOfFormat fmt := by
        rcases hf with rfl | rfl <;> simp [baseOfFormat]
      have hb8 : baseOfFormat fmt ≤ 8 := by
        rcases hf with rfl | rfl <;> simp [baseOfFormat]
      rw [intStringRoundTrip, cvarStringToInt64,
        cvarIntToString_smallBase v h0 (by omega) fmt hf,
        @strtollModel_digitsRev (baseOfFormat fmt) hb2 (by omega) v.toNat,
        strtollDetect_digitsRevSmall 1 hb2 hb8 v.toNat]
      set D := (((digitsRev (baseOfFormat fmt) v.toNat).reverse).foldl
        (fun a x => a * 10 + (digitValIn 10 x).getD 0) 0) with hDdef
      rcases Nat.lt_or_ge v.toNat (baseOfFormat fmt) with hlt | hge
      · have hD : D = v.toNat := by
          rw [hDdef, digitsRev_single hb2 hlt]
          simp [digitValIn_digitChar (show (10 : Nat) ≤ 16 by norm_num)
            (show v.toNat < 10 by omega)]
        rw [hD]
        have hv : (1 : Int) * (v.toNat : Int) = v := by omega
        rw [hv, clampInt64, if_neg (by omega), if_neg (by omega)]
        exact iff_of_true rfl (Or.inl (by omega))
      · have hgt := (foldl_digitsRev_decimal hb2 hb8 v.toNat).2 hge
        rw [← hDdef] at hgt
        constructor
        · intro hEq
          exfalso
          have hcl : clampInt64 ((1 : Int) * (D : Int)) = v := Option.some_inj.mp hEq
          rw [one_mul, clampInt64] at hcl
          split_ifs at hcl <;> omega
        · intro hOr
          exfalso
          rcases hOr with h | h
          · omega
          · exact hmax h

/-- Witness for C6: the amended round-trip laws at concrete values. -/
theorem C6_witness :
    intStringRoundTrip (-37) NumberFormat.decimal = some (-37) ∧
    intStringRoundTrip 255 NumberFormat.hexadecimal = some 255 ∧
    (intStringRoundTrip 7 NumberFormat.octal = some 7 ↔
      ((7 : Int) < (baseOfFormat NumberFormat.octal : Int) ∨
        (7 : Int) = 2 ^ 63 - 1)) := by
  refine ⟨?_, ?_, ?_⟩
  · exact C6_intStringRoundTrip_amended.1 (-37) (by norm_num) (by norm_num)
  · exact C6_intStringRoundTrip_amended.2.1 255 (by norm_num) (by norm_num)
  · exact C6_intStringRoundTrip_amended.2.2 7 (by norm_num) (by norm_num)
      NumberFormat.octal (Or.inr rfl)

/-! ### C7: `LinkedHashTable` (cfg.cpp lines 861-1050)

`findByKey` compares only the stored 32-bit hash against the hash of the
queried key — it never compares the names themselves.  The table is
modelled by its bucket array (bucket index → chain of entries, head =
most recently linked, as `linkWithKey` prepends) plus the `usedBuckets`
counter that `isEmpty` consults; the insertion-order list (`listNext`)
plays no role in the hash lookup and is not modelled here. -/

/-- Jenkins one-at-a-time hash (`StringHasher`, cfg.cpp lines 754-773),
on uint32 arithmetic (case-sensitive variant: `CFG_CVAR_CASE_SENSITIVE_NAMES`
defaults to 1). -/
def hashOAT (s : List Char) : Nat :=
  let hl := s.foldl (fun h c =>
    let h1 := (h + c.toNat) % 2 ^ 32
    let h2 := (h1 + h1 <<< 10) % 2 ^ 32
    h2 ^^^ (h2 >>> 6)) 0
  let h3 := (hl + hl <<< 3) % 2 ^ 32
  let h4 := h3 ^^^ (h3 >>> 11)
  (h4 + h4 <<< 15) % 2 ^ 32

/-- A linked node: its stored hash key and the name it was linked with. -/
structure HashEntry where
  hashKey : Nat
  name : List Char
deriving DecidableEq

/-- The bucket state of a `LinkedHashTable`. -/
structure HashTableModel where
  bucketCount : Nat
  usedBuckets : Nat
  buckets : Nat → List HashEntry

/-- A freshly `allocate`d table: all buckets empty. -/
def HashTableModel.empty (sizeInBuckets : Nat) : HashTableModel :=
  ⟨sizeInBuckets, 0, fun _ => []⟩

/-- `LinkedHashTable::findByKey` (cfg.cpp lines 906-923): empty-table
short-circuit, then scan the bucket chain comparing stored hashes only. -/
def HashTableModel.findByKey (t : HashTableModel) (key : List Char) :
    Option HashEntry :=
  if t.usedBuckets = 0 then none
  else
    (t.buckets (hashOAT key % t.bucketCount)).find?
      (fun node => node.hashKey == hashOAT key)

theorem HashTableModel.findByKey_def (t : HashTableModel) (key : List Char)
    (h : t.usedBuckets ≠ 0) :
    t.findByKey key =
      (t.buckets (hashOAT key % t.bucketCount)).find?
        (fun node => node.hashKey == hashOAT key) := by
  rw [HashTableModel.findByKey, if_neg h]

/-- `LinkedHashTable::linkWithKey` (cfg.cpp lines 925-946): compute the
hash, prepend the node to its bucket chain, bump the counter. -/
def HashTableModel.linkWithKey (t : HashTableModel) (name : List Char) :
    HashTableModel :=
  { t with
    usedBuckets := t.usedBuckets + 1
    buckets := Function.update t.buckets (hashOAT name % t.bucketCount)
      (⟨hashOAT name, name⟩ :: t.buckets (hashOAT name % t.bucketCount)) }

/-- The bucket-chain removal of `unlinkByKey`: drop the first node whose
stored hash matches. -/
def removeFirstHash (hashKey : Nat) : List HashEntry → List HashEntry
  | [] => []
  | n :: rest =>
    if n.hashKey == hashKey then rest else n :: removeFirstHash hashKey rest

/-- `LinkedHashTable::unlinkByKey` (cfg.cpp lines 948-997): empty-table
short-circuit; if a node with a matching hash is in the bucket chain it is
removed (its own hash is reset to zero, which only affects the detached
node) and the counter decremented, otherwise nothing changes. -/
def HashTableModel.unlinkByKey (t : HashTableModel) (key : List Char) :
    HashTableModel :=
  if t.usedBuckets = 0 then t
  else if (t.buckets (hashOAT key % t.bucketCount)).any
      (fun n => n.hashKey == hashOAT key) then
    { t with
      usedBuckets := t.usedBuckets - 1
      buckets := Function.update t.buckets (hashOAT key % t.bucketCount)
        (removeFirstHash (hashOAT key) (t.buckets (hashOAT key % t.bucketCount))) }
  else t

/-- One registry-index operation. -/
inductive TableOp
  | link (name : List Char)
  | unlink (key : List Char)
deriving DecidableEq

/-- Apply one operation. -/
def applyOp (t : HashTableModel) : TableOp → HashTableModel
  | .link name => t.linkWithKey name
  | .unlink key => t.unlinkByKey key

/-- Run a sequence of operations. -/
def runOps (t : HashTableModel) : List TableOp → HashTableModel
  | [] => t
  | op :: rest => runOps (applyOp t op) rest

/-- The names passed to the link operations of a sequence. -/
def linkNames : List TableOp → List (List Char)
  | [] => []
  | .link n :: rest => n :: linkNames rest
  | .unlink _ :: rest => linkNames rest

theorem find?_eq_some_of_unique {α : Type} (p : α → Bool) :
    ∀ (l : List α) (e : α), e ∈ l → p e = true →
      (∀ x ∈ l, p x = true → x = e) → l.find? p = some e := by
  intro l
  induction l with
  | nil => intro e he; simp at he
  | cons a rest ih =>
    intro e he hp huniq
    by_cases ha : p a = true
    · rw [List.find?_cons_of_pos _ ha, huniq a (by simp) ha]
    · rw [List.find?_cons_of_neg _ (by simpa using ha)]
      have he2 : e ∈ rest := by
        rcases List.mem_cons.mp he with rfl | h
        · exact absurd hp ha
        · exact h
      exact ih e he2 hp (fun x hx hpx => huniq x (by simp [hx]) hpx)

/-- The structural invariant of the bucket array: positive bucket count,
every linked entry stores the hash of its own name and sits in the bucket
that hash selects, the `usedBuckets` counter equals the number of linked
entries, and no entry sits beyond the allocated buckets. -/
structure TableWF (t : HashTableModel) : Prop where
  pos : 0 < t.bucketCount
  placed : ∀ i, ∀ e ∈ t.buckets i,
    e.hashKey = hashOAT e.name ∧ i = hashOAT e.name % t.bucketCount
  count : t.usedBuckets = ∑ i ∈ Finset.range t.bucketCount, (t.buckets i).length
  high : ∀ i, t.bucketCount ≤ i → t.buckets i = []

theorem tableWF_empty {sz : Nat} (hsz : 0 < sz) :
    TableWF (HashTableModel.empty sz) := by
  refine ⟨hsz, ?_, ?_, ?_⟩
  · intro i e he; simp [HashTableModel.empty] at he
  · simp [HashTableModel.empty]
  · intro i _; rfl

theorem sum_length_update (f : Nat → List HashEntry) (j n : Nat) (B : List HashEntry) :
    ∑ i ∈ Finset.range n, (Function.update f j B i).length =
      ∑ i ∈ Finset.range n, Function.update (fun i => (f i).length) j B.length i := by
  refine Finset.sum_congr rfl ?_
  intro i _
  rw [Function.update_apply, Function.update_apply]
  split <;> rfl

theorem linkWithKey_bucketCount (t : HashTableModel) (name : List Char) :
    (t.linkWithKey name).bucketCount = t.bucketCount := rfl

theorem linkWithKey_usedBuckets (t : HashTableModel) (name : List Char) :
    (t.linkWithKey name).usedBuckets = t.usedBuckets + 1 := rfl

theorem linkWithKey_buckets (t : HashTableModel) (name : List Char) :
    (t.linkWithKey name).buckets =
      Function.update t.buckets (hashOAT name % t.bucketCount)
        (⟨hashOAT name, name⟩ :: t.buckets (hashOAT name % t.bucketCount)) := rfl

theorem tableWF_link {t : HashTableModel} (hwf : TableWF t) (name : List Char) :
    TableWF (t.linkWithKey name) := by
  obtain ⟨pos, placed, count, high⟩ := hwf
  have hj : hashOAT name % t.bucketCount < t.bucketCount := Nat.mod_lt _ pos
  refine ⟨pos, ?_, ?_, ?_⟩
  · intro i e he
    rw [linkWithKey_buckets, Function.update_apply] at he
    rw [linkWithKey_bucketCount]
    split at he
    · rename_i hi
      subst hi
      rcases List.mem_cons.mp he with rfl | h
      · exact ⟨rfl, rfl⟩
      · exact placed _ e h
    · exact placed i e he
  · rw [linkWithKey_usedBuckets, linkWithKey_bucketCount, linkWithKey_buckets,
      sum_length_update, Finset.sum_update_of_mem (Finset.mem_range.mpr hj), count,
      Finset.sum_eq_sum_diff_singleton_add (Finset.mem_range.mpr hj)
        (fun i => (t.buckets i).length)]
    simp only [List.length_cons]
    omega
  · intro i hi
    rw [linkWithKey_bucketCount] at hi
    rw [linkWithKey_buckets, Function.update_apply, if_neg (by omega)]
    exact high i hi

theorem removeFirstHash_subset (h : Nat) :
    ∀ (l : List HashEntry), ∀ e ∈ removeFirstHash h l, e ∈ l := by
  intro l
  induction l with
  | nil => intro e he; simp [removeFirstHash] at he
  | cons a rest ih =>
    intro e he
    rw [removeFirstHash] at he
    split at he
    · exact List.mem_cons.mpr (Or.inr he)
    · rcases List.mem_cons.mp he with rfl | h2
      · exact List.mem_cons_self _ _
      · exact List.mem_cons.mpr (Or.inr (ih e h2))

theorem removeFirstHash_length (h : Nat) :
    ∀ (l : List HashEntry), l.any (fun n => n.hashKey == h) →
      (removeFirstHash h l).length + 1 = l.length := by
  intro l
  induction l with
  | nil => intro hany; simp at hany
  | cons a rest ih =>
    intro hany
    rw [removeFirstHash]
    split
    · simp
    · rename_i hne
      have hrest : rest.any (fun n => n.hashKey == h) := by
        rcases List.any_eq_true.mp hany with ⟨x, hx, hpx⟩
        rcases List.mem_cons.mp hx with rfl | h2
        · exact absurd hpx (by simpa using hne)
        · exact List.any_eq_true.mpr ⟨x, h2, hpx⟩
      simpa using ih hrest

theorem unlinkByKey_found (t : HashTableModel) (key : List Char)
    (hne : t.usedBuckets ≠ 0)
    (hany : (t.buckets (hashOAT key % t.bucketCount)).any
      (fun n => n.hashKey == hashOAT key) = true) :
    t.unlinkByKey key =
      { t with
        usedBuckets := t.usedBuckets - 1
        buckets := Function.update t.buckets (hashOAT key % t.bucketCount)
          (removeFirstHash (hashOAT key)
            (t.buckets (hashOAT key % t.bucketCount))) } := by
  rw [HashTableModel.unlinkByKey, if_neg hne, if_pos hany]

theorem unlinkByKey_notFound (t : HashTableModel) (key : List Char)
    (h : t.usedBuckets = 0 ∨
      ¬(t.buckets (hashOAT key % t.bucketCount)).any
        (fun n => n.hashKey == hashOAT key) = true) :
    t.unlinkByKey key = t := by
  rw [HashTableModel.unlinkByKey]
  rcases h with h | h
  · rw [if_pos h]
  · by_cases hz : t.usedBuckets = 0
    · rw [if_pos hz]
    · rw [if_neg hz, if_neg h]

theorem tableWF_unlink {t : HashTableModel} (hwf : TableWF t) (key : List Char) :
    TableWF (t.unlinkByKey key) := by
  obtain ⟨pos, placed, count, high⟩ := hwf
  by_cases hne : t.usedBuckets = 0
  · rw [unlinkByKey_notFound t key (Or.inl hne)]
    exact ⟨pos, placed, count, high⟩
  by_cases hany : (t.buckets (hashOAT key % t.bucketCount)).any
      (fun n => n.hashKey == hashOAT key) = true
  · rw [unlinkByKey_found t key hne hany]
    have hj : hashOAT key % t.bucketCount < t.bucketCount := Nat.mod_lt _ pos
    refine ⟨pos, ?_, ?_, ?_⟩
    · intro i e he
      simp only [Function.update_apply] at he
      split at he
      · rename_i hi
        subst hi
        exact placed _ e (removeFirstHash_subset _ _ e he)
      · exact placed i e he
    · simp only
      rw [sum_length_update, Finset.sum_update_of_mem (Finset.mem_range.mpr hj), count,
        Finset.sum_eq_sum_diff_singleton_add (Finset.mem_range.mpr hj)
          (fun i => (t.buckets i).length)]
      have hrem := removeFirstHash_length (hashOAT key)
        (t.buckets (hashOAT key % t.bucketCount)) hany
      omega
    · intro i hi
      simp only at hi
      simp only [Function.update_apply]
      rw [if_neg (by omega)]
      exact high i hi
  · rw [unlinkByKey_notFound t key (Or.inr hany)]
    exact ⟨pos, placed, count, high⟩

theorem runOps_wf (S : List (List Char)) :
    ∀ (ops : List TableOp) (t : HashTableModel), TableWF t →
      (∀ i, ∀ e ∈ t.buckets i, e.name ∈ S) →
      (∀ n ∈ linkNames ops, n ∈ S) →
      TableWF (runOps t ops) ∧
        ∀ i, ∀ e ∈ (runOps t ops).buckets i, e.name ∈ S := by
  intro ops
  induction ops with
  | nil => intro t hwf hnames _; exact ⟨hwf, hnames⟩
  | cons op rest ih =>
    intro t hwf hnames hS
    cases op with
    | link n =>
      refine ih (t.linkWithKey n) (tableWF_link hwf n) ?_ ?_
      · intro i e he
        rw [linkWithKey_buckets, Function.update_apply] at he
        split at he
        · rcases List.mem_cons.mp he with rfl | h2
          · exact hS n (by simp [linkNames])
          · exact hnames _ e h2
        · exact hnames i e he
      · intro m hm
        exact hS m (by simp [linkNames, hm])
    | unlink k =>
      refine ih (t.unlinkByKey k) (tableWF_unlink hwf k) ?_ ?_
      · intro i e he
        by_cases hne : t.usedBuckets = 0
        · rw [unlinkByKey_notFound t k (Or.inl hne)] at he
          exact hnames i e he
        by_cases hany : (t.buckets (hashOAT k % t.bucketCount)).any
            (fun n => n.hashKey == hashOAT k) = true
        · rw [unlinkByKey_found t k hne hany] at he
          simp only [Function.update_apply] at he
          split at he
          · rename_i hi
            subst hi
            exact hnames _ e (removeFirstHash_subset _ _ e he)
          · exact hnames i e he
        · rw [unlinkByKey_notFound t k (Or.inr hany)] at he
          exact hnames i e he
      · intro m hm
        exact hS m (by simp [linkNames, hm])

/-- C7, counterexample: `apmiba` and `emamba` are distinct valid CVar names
with the same one-at-a-time hash (109131).  Linking both and then looking up
the first name returns the entry of the second: `findByKey` compares only
stored hashes, so the claim fails for name sets that collide under the hash
function. -/
theorem C7_counterexample :
    ((runOps (HashTableModel.empty 1033)
      [TableOp.link "apmiba".toList, TableOp.link "emamba".toList]).findByKey
        "apmiba".toList).map HashEntry.name = some "emamba".toList ∧
    "emamba".toList ≠ "apmiba".toList ∧
    hashOAT "apmiba".toList = hashOAT "emamba".toList ∧
    isValidCVarName "apmiba".toList = true ∧
    isValidCVarName "emamba".toList = true := by
  refine ⟨by decide, by decide, by decide, by decide, by decide⟩

/-- C7 (amended): run any sequence of link/unlink operations on a freshly
allocated table.  Provided the linked names have pairwise distinct hashes —
which `findByKey` needs, since it compares only hashes — every linked entry
stores the hash of its own name (hence a non-zero hash whenever the name's
hash is non-zero, which the implementation asserts), and `findByKey` on the
entry's own name returns exactly that entry. -/
theorem C7_findByKey_amended (sz : Nat) (ops : List TableOp) (hsz : 0 < sz)
    (hinj : (linkNames ops).Pairwise
      (fun n1 n2 => hashOAT n1 = hashOAT n2 → n1 = n2)) :
    ∀ i, ∀ e ∈ (runOps (HashTableModel.empty sz) ops).buckets i,
      e.hashKey = hashOAT e.name ∧
      (hashOAT e.name ≠ 0 → e.hashKey ≠ 0) ∧
      (runOps (HashTableModel.empty sz) ops).findByKey e.name = some e := by
  have hinj2 : ∀ n1 ∈ linkNames ops, ∀ n2 ∈ linkNames ops,
      hashOAT n1 = hashOAT n2 → n1 = n2 := by
    have hsymm : Symmetric (fun n1 n2 : List Char =>
        hashOAT n1 = hashOAT n2 → n1 = n2) := by
      intro a b hab hba
      exact (hab hba.symm).symm
    intro n1 h1 n2 h2 hh
    by_cases hne : n1 = n2
    · exact hne
    · exact hinj.forall hsymm h1 h2 hne hh
  obtain ⟨hwf, hnames⟩ := runOps_wf (linkNames ops) ops (HashTableModel.empty sz)
    (tableWF_empty hsz) (by intro i e he; simp [HashTableModel.empty] at he)
    (fun n hn => hn)
  intro i e he
  obtain ⟨hk, hplace⟩ := hwf.placed i e he
  refine ⟨hk, fun h => by rw [hk]; exact h, ?_⟩
  have hused : (runOps (HashTableModel.empty sz) ops).usedBuckets ≠ 0 := by
    rw [hwf.count]
    have hilt : i < (runOps (HashTableModel.empty sz) ops).bucketCount := by
      by_contra hge
      rw [hwf.high i (by omega)] at he
      simp at he
    have hle : (runOps (HashTableModel.empty sz) ops).buckets i ≠ [] := by
      intro hnil
      rw [hnil] at he
      simp at he
    have hlen : 1 ≤ ((runOps (HashTableModel.empty sz) ops).buckets i).length := by
      cases hb : (runOps (HashTableModel.empty sz) ops).buckets i with
      | nil => exact absurd hb hle
      | cons a l => simp
    have hsum : ((runOps (HashTableModel.empty sz) ops).buckets i).length ≤
        ∑ x ∈ Finset.range (runOps (HashTableModel.empty sz) ops).bucketCount,
          ((runOps (HashTableModel.empty sz) ops).buckets x).length :=
      @Finset.single_le_sum Nat Nat _
        (fun j => ((runOps (HashTableModel.empty sz) ops).buckets j).length)
        (Finset.range (runOps (HashTableModel.empty sz) ops).bucketCount)
        (fun j _ => Nat.zero_le _) i (Finset.mem_range.mpr hilt)
    omega
  rw [HashTableModel.findByKey_def _ _ hused, ← hplace]
  apply find?_eq_some_of_unique _ _ e he
  · rw [hk]
    exact beq_self_eq_true _
  · intro x hx hpx
    obtain ⟨hxk, hxplace⟩ := hwf.placed i x hx
    have hhx : hashOAT x.name = hashOAT e.name := by
      have := eq_of_beq hpx
      omega
    have hnx : x.name = e.name :=
      hinj2 x.name (hnames i x hx) e.name (hnames i e he) hhx
    cases x with
    | mk xk xn =>
      cases e with
      | mk ek en =>
        simp only at hk hxk hnx hhx
        subst hnx
        rw [hxk, hk]

/-- Witness for C7 (amended): two concrete names with distinct hashes,
linked and then found. -/
theorem C7_witness :
    ((runOps (HashTableModel.empty 1033)
      [TableOp.link "fps".toList, TableOp.link "gamma".toList]).findByKey
        "fps".toList) = some ⟨hashOAT "fps".toList, "fps".toList⟩ ∧
    hashOAT "fps".toList ≠ 0 := by
  refine ⟨?_, by decide⟩
  exact (C7_findByKey_amended 1033
    [TableOp.link "fps".toList, TableOp.link "gamma".toList]
    (by norm_num) (by decide)
    (hashOAT "fps".toList % 1033) ⟨hashOAT "fps".toList, "fps".toList⟩
    (by decide)).2.2

/-! ### CVar data model (cfg.cpp CVarImpl and the cvarSetX/cvarToX layer)

A CVar is one of the five `CVarImpl` template instances (cfg.cpp lines
2175-2179), carrying its current value, immutable default, and per-type
constraint (`valueRange`).  `double` values are modelled as `ℚ`: the
setters only compare and copy them, so the exact binary64 representation
does not matter on these paths.  The printf-based float→string rendering
(`CFG_FLOAT_PRINT_FMT`, an external C-library call) enters only when a
float value is written into a String CVar; the operations take it as an
explicit function parameter `ffmt`, and every theorem below holds for an
arbitrary rendering function. -/

/-- `CVar::Flags` (cfg.hpp lines 105-123) as named bits. -/
structure CVarFlags where
  modified : Bool
  persistent : Bool
  volatileFlag : Bool
  readOnly : Bool
  initOnly : Bool
  rangeCheck : Bool
  userDefined : Bool
deriving DecidableEq

/-- `CVarEnumConst` (cfg_cvar.hpp): a constant name (empty when unknown)
and its integer value. -/
structure CVarEnumConst where
  name : List Char
  value : Int
deriving DecidableEq

/-- The five CVar value stores with their constraints: Int and Float carry
a numeric range, String an optional allowed-string list, Enum an optional
constant list (name/value pairs). -/
inductive CVarData
  | int (current defaultV : Int) (range : Int × Int)
  | bool (current defaultV : Bool)
  | float (current defaultV : ℚ) (range : ℚ × ℚ)
  | str (current defaultV : List Char) (allowed : Option (List (List Char)))
  | enum (current defaultV : CVarEnumConst)
      (consts : Option (List (List Char × Int)))
deriving DecidableEq

/-- A CVar as `CVarImpl` stores it: typed data, number format, flags.
(The name and description strings play no role in the value claims.) -/
structure CVarState where
  data : CVarData
  numberFormat : NumberFormat
  flags : CVarFlags
deriving DecidableEq

/-- The default bool-string table `g_defaultBoolStrings` (cfg.cpp line 453):
(true-spelling, false-spelling) pairs; the claims are stated under this
default table. -/
def defaultBoolStrings : List (List Char × List Char) :=
  [("true".toList, "false".toList), ("yes".toList, "no".toList),
   ("on".toList, "off".toList), ("1".toList, "0".toList)]

/-- `static_cast<std::int64_t>` on a double: truncation toward zero. -/
def truncQ (q : ℚ) : Int := if 0 ≤ q then ⌊q⌋ else ⌈q⌉

/-- Model of `std::strtod` restricted to decimal literals: optional leading
whitespace, optional sign, integer digits, optional fraction, optional
exponent consumed only when at least one exponent digit follows.  (The C
library also accepts hex floats and inf/nan spellings; those lie outside
the fragment the claims exercise.)  `none` models `endPtr == nPtr`. -/
def strtodModel (s : List Char) : Option ℚ :=
  let s1 := s.dropWhile isSpaceC
  let sgn : ℚ := if s1.head? = some '-' then -1 else 1
  let s2 := if s1.head? = some '-' ∨ s1.head? = some '+' then s1.tail else s1
  let ipart := takeDigitsAcc 10 0 s2
  let s3 := ipart.2.2
  let fpart :=
    match s3 with
    | '.' :: r => takeDigitsAcc 10 0 r
    | _ => (0, 0, s3)
  if ipart.2.1 + fpart.2.1 = 0 then none
  else
    let mantissa : ℚ := (ipart.1 : ℚ) + (fpart.1 : ℚ) / (10 : ℚ) ^ fpart.2.1
    let s4 := fpart.2.2
    let expo : Int :=
      match s4 with
      | e :: rest =>
        if e = 'e' ∨ e = 'E' then
          let esgn : Int := if rest.head? = some '-' then -1 else 1
          let rest2 := if rest.head? = some '-' ∨ rest.head? = some '+' then
            rest.tail else rest
          let epart := takeDigitsAcc 10 0 rest2
          if epart.2.1 = 0 then 0 else esgn * epart.1
        else 0
      | [] => 0
    some (sgn * mantissa * (10 : ℚ) ^ expo)

/-! The `cvarSetX` family (cfg.cpp lines 1405-1683), one function per
(source value, target store) pair, fused over the `CVarData` sum.  Each
takes the `rangeChecked` flag: the `CVarImpl` setters pass the stored
constraint only when `RangeCheck` is set (`isRangeChecked() ? &valueRange
: nullptr`). -/

/-- The constraint argument the `CVarImpl` setters pass down to the
`cvarSetX` helpers: the stored list when the RangeCheck flag is set, a null
pointer otherwise (`isRangeChecked() ? &valueRange : nullptr`, cfg.cpp
lines 1996-2058).  The String allowed-list and the Enum constant list are
therefore consulted only under RangeCheck; without it the helpers take
their no-list branches. -/
def checkedList {α : Type} (rangeChecked : Bool) (stored : Option α) :
    Option α :=
  match rangeChecked with
  | true => stored
  | false => none

theorem checkedList_true {α : Type} (s : Option α) : checkedList true s = s := rfl

theorem checkedList_false {α : Type} (s : Option α) :
    checkedList false s = none := rfl

theorem checkedList_none {α : Type} (rc : Bool) :
    checkedList rc (none : Option α) = none := by
  cases rc <;> rfl

/-- `cvarSetInt64` (cfg.cpp lines 1405-1498) across the five stores. -/
def cvarSetInt64 (d : CVarData) (newVal : Int) (rangeChecked : Bool)
    (fmt : NumberFormat) : Bool × CVarData :=
  match d with
  | .int _ dft range =>
    if rangeChecked ∧ newVal < range.1 then (false, d)
    else if rangeChecked ∧ newVal > range.2 then (false, d)
    else (true, .int newVal dft range)
  | .bool _ dft =>
    (true, .bool (newVal > 0) dft)
  | .float _ dft range =>
    if rangeChecked ∧ (newVal : ℚ) < range.1 then (false, d)
    else if rangeChecked ∧ (newVal : ℚ) > range.2 then (false, d)
    else (true, .float (newVal : ℚ) dft range)
  | .enum _ dft consts =>
    match checkedList rangeChecked consts with
    | some cl =>
      match cl.find? (fun c => c.2 == newVal) with
      | some c => (true, .enum ⟨c.1, c.2⟩ dft consts)
      | none => (false, d)
    | none => (true, .enum ⟨[], newVal⟩ dft consts)
  | .str _ dft allowed =>
    match checkedList rangeChecked allowed with
    | some al =>
      if (cvarIntToString newVal fmt) ∈ al then
        (true, .str (cvarIntToString newVal fmt) dft allowed)
      else (false, d)
    | none => (true, .str (cvarIntToString newVal fmt) dft allowed)

/-- `cvarSetDouble` (cfg.cpp lines 1504-1578) across the five stores;
`ffmt` stands in for the printf float rendering used by the String store. -/
def cvarSetDouble (ffmt : ℚ → List Char) (d : CVarData) (newVal : ℚ)
    (rangeChecked : Bool) : Bool × CVarData :=
  match d with
  | .int _ dft range =>
    if rangeChecked ∧ newVal < (range.1 : ℚ) then (false, d)
    else if rangeChecked ∧ newVal > (range.2 : ℚ) then (false, d)
    else (true, .int (truncQ newVal) dft range)
  | .bool _ dft =>
    (true, .bool (newVal > 0) dft)
  | .float _ dft range =>
    if rangeChecked ∧ newVal < range.1 then (false, d)
    else if rangeChecked ∧ newVal > range.2 then (false, d)
    else (true, .float newVal dft range)
  | .enum _ _ _ =>
    cvarSetInt64 d (truncQ newVal) rangeChecked NumberFormat.decimal
  | .str _ dft allowed =>
    match checkedList rangeChecked allowed with
    | some al =>
      if ffmt newVal ∈ al then (true, .str (ffmt newVal) dft allowed)
      else (false, d)
    | none => (true, .str (ffmt newVal) dft allowed)

/-- The bool-string scan of `cvarSetString(bool*)` (cfg.cpp line 1596):
first pair whose true- or false-spelling matches wins. -/
def boolFromString : List (List Char × List Char) → List Char → Option Bool
  | [], _ => none
  | p :: rest, s =>
    if p.1 == s then some true
    else if p.2 == s then some false
    else boolFromString rest s

/-- `cvarSetString` (cfg.cpp lines 1584-1683) across the five stores. -/
def cvarSetString (d : CVarData) (newVal : List Char) (rangeChecked : Bool) :
    Bool × CVarData :=
  match d with
  | .int _ _ _ =>
    match strtollModel newVal with
    | none => (false, d)
    | some temp => cvarSetInt64 d temp rangeChecked NumberFormat.decimal
  | .bool _ dft =>
    match boolFromString defaultBoolStrings newVal with
    | some b => (true, .bool b dft)
    | none => (false, d)
  | .float _ _ _ =>
    match strtodModel newVal with
    | none => (false, d)
    | some temp => cvarSetDouble (fun _ => []) d temp rangeChecked
  | .enum _ dft consts =>
    match checkedList rangeChecked consts with
    | some cl =>
      match cl.find? (fun c => c.1 == newVal) with
      | some c => (true, .enum ⟨c.1, c.2⟩ dft consts)
      | none => (false, d)
    | none =>
      match strtollModel newVal with
      | none => (false, d)
      | some temp => (true, .enum ⟨[], temp⟩ dft consts)
  | .str _ dft allowed =>
    match checkedList rangeChecked allowed with
    | some al =>
      if newVal ∈ al then (true, .str newVal dft allowed)
      else (false, d)
    | none => (true, .str newVal dft allowed)

/-- `cvarToString` on a `CVarEnumConst` (cfg.cpp lines 1379-1390): the
symbolic name when one is stored, else the numeric rendering. -/
def cvarEnumToString (e : CVarEnumConst) (fmt : NumberFormat) : List Char :=
  if e.name ≠ [] then e.name else cvarIntToString e.value fmt

/-- `CVarImpl::isWritable` (cfg.cpp line 1930): neither ReadOnly nor
InitOnly. -/
def CVarState.isWritable (cv : CVarState) : Bool :=
  !(cv.flags.readOnly || cv.flags.initOnly)

/-- `CVarImpl::setModified`. -/
def CVarState.setModifiedFlag (cv : CVarState) : CVarState :=
  { cv with flags := { cv.flags with modified := true } }

/-- `CVarImpl::setIntValue` (cfg.cpp line 1989): writability gate, typed
set with the range passed only under RangeCheck, Modified on success. -/
def CVarState.setIntValue (cv : CVarState) (newValue : Int) : Bool × CVarState :=
  if !cv.isWritable then (false, cv)
  else
    match cvarSetInt64 cv.data newValue cv.flags.rangeCheck cv.numberFormat with
    | (true, d2) => (true, CVarState.setModifiedFlag { cv with data := d2 })
    | (false, d2) => (false, { cv with data := d2 })

/-- `CVarImpl::setBoolValue` (cfg.cpp line 2009): the bool is converted to
int64 and written through `cvarSetInt64`. -/
def CVarState.setBoolValue (cv : CVarState) (newValue : Bool) : Bool × CVarState :=
  if !cv.isWritable then (false, cv)
  else
    match cvarSetInt64 cv.data (if newValue then 1 else 0) cv.flags.rangeCheck
        cv.numberFormat with
    | (true, d2) => (true, CVarState.setModifiedFlag { cv with data := d2 })
    | (false, d2) => (false, { cv with data := d2 })

/-- `CVarImpl::setFloatValue` (cfg.cpp line 2029). -/
def CVarState.setFloatValue (ffmt : ℚ → List Char) (cv : CVarState)
    (newValue : ℚ) : Bool × CVarState :=
  if !cv.isWritable then (false, cv)
  else
    match cvarSetDouble ffmt cv.data newValue cv.flags.rangeCheck with
    | (true, d2) => (true, CVarState.setModifiedFlag { cv with data := d2 })
    | (false, d2) => (false, { cv with data := d2 })

/-- `CVarImpl::setStringValue` (cfg.cpp line 2051). -/
def CVarState.setStringValue (cv : CVarState) (newValue : List Char) :
    Bool × CVarState :=
  if !cv.isWritable then (false, cv)
  else
    match cvarSetString cv.data newValue cv.flags.rangeCheck with
    | (true, d2) => (true, CVarState.setModifiedFlag { cv with data := d2 })
    | (false, d2) => (false, { cv with data := d2 })

/-- `CVarImpl::setStringValueIgnoreRO` (cfg.cpp line 2066): two independent
override gates, and no Modified update on success. -/
def CVarState.setStringValueIgnoreRO (cv : CVarState) (newValue : List Char)
    (writeRomCVars writeInitCVars : Bool) : Bool × CVarState :=
  if cv.flags.readOnly ∧ ¬writeRomCVars then (false, cv)
  else if cv.flags.initOnly ∧ ¬writeInitCVars then (false, cv)
  else
    match cvarSetString cv.data newValue cv.flags.rangeCheck with
    | (true, d2) => (true, { cv with data := d2 })
    | (false, d2) => (false, { cv with data := d2 })

/-- Copy the stored default into the current value. -/
def CVarData.resetToDefault : CVarData → CVarData
  | .int _ dft r => .int dft dft r
  | .bool _ dft => .bool dft dft
  | .float _ dft r => .float dft dft r
  | .str _ dft a => .str dft dft a
  | .enum _ dft c => .enum dft dft c

/-- `CVarImpl::setDefaultValue` (cfg.cpp line 2108): writability gate, copy
the default, set Modified. -/
def CVarState.setDefaultValue (cv : CVarState) : Bool × CVarState :=
  if !cv.isWritable then (false, cv)
  else (true, CVarState.setModifiedFlag { cv with data := cv.data.resetToDefault })

/-- `CVarImpl::setDefaultValueIgnoreRO` (cfg.cpp line 2120). -/
def CVarState.setDefaultValueIgnoreRO (cv : CVarState)
    (writeRomCVars writeInitCVars : Bool) : Bool × CVarState :=
  if cv.flags.readOnly ∧ ¬writeRomCVars then (false, cv)
  else if cv.flags.initOnly ∧ ¬writeInitCVars then (false, cv)
  else (true, { cv with data := cv.data.resetToDefault })

/-- `CVarManagerImpl::internalSetStringValue` (cfg.cpp lines 2750-2763):
the privileged setter takes the IgnoreRO path only when the CVar is not
writable AND at least one override switch is on; otherwise it delegates to
the public `setStringValue`. -/
def internalSetStringValue (allowWritingRomCVars allowWritingInitCVars : Bool)
    (cv : CVarState) (value : List Char) : Bool × CVarState :=
  if !cv.isWritable ∧ (allowWritingRomCVars ∨ allowWritingInitCVars) then
    cv.setStringValueIgnoreRO value allowWritingRomCVars allowWritingInitCVars
  else
    cv.setStringValue value

/-- `CVarManagerImpl::internalSetDefaultValue` (cfg.cpp lines 2765-2778). -/
def internalSetDefaultValue (allowWritingRomCVars allowWritingInitCVars : Bool)
    (cv : CVarState) : Bool × CVarState :=
  if !cv.isWritable ∧ (allowWritingRomCVars ∨ allowWritingInitCVars) then
    cv.setDefaultValueIgnoreRO allowWritingRomCVars allowWritingInitCVars
  else
    cv.setDefaultValue

/-- The range invariant claim C2 asserts for numeric stores. -/
def dataInRange : CVarData → Prop
  | .int cur _ r => r.1 ≤ cur ∧ cur ≤ r.2
  | .float cur _ r => r.1 ≤ cur ∧ cur ≤ r.2
  | _ => True

theorem truncQ_mem {q : ℚ} {mn mx : Int} (h1 : (mn : ℚ) ≤ q) (h2 : q ≤ (mx : ℚ)) :
    mn ≤ truncQ q ∧ truncQ q ≤ mx := by
  rw [truncQ]
  split
  · refine ⟨Int.le_floor.mpr h1, ?_⟩
    have hf : (⌊q⌋ : ℚ) ≤ (mx : ℚ) := (Int.floor_le q).trans h2
    exact_mod_cast hf
  · refine ⟨?_, Int.ceil_le.mpr h2⟩
    have hc : (mn : ℚ) ≤ (⌈q⌉ : ℚ) := h1.trans (Int.le_ceil q)
    exact_mod_cast hc

theorem cvarSetInt64_inRange (d : CVarData) (v : Int) (fmt : NumberFormat) :
    (cvarSetInt64 d v true fmt).1 = true →
      dataInRange (cvarSetInt64 d v true fmt).2 := by
  cases d with
  | int cur dft r =>
    rw [cvarSetInt64]
    split_ifs with h1 h2
    · intro h; simp at h
    · intro h; simp at h
    · intro _
      push_neg at h1 h2
      exact ⟨h1 rfl, h2 rfl⟩
  | bool cur dft => intro _; trivial
  | float cur dft r =>
    rw [cvarSetInt64]
    split_ifs with h1 h2
    · intro h; simp at h
    · intro h; simp at h
    · intro _
      refine ⟨?_, ?_⟩
      · by_contra hlt
        exact h1 ⟨rfl, by push_neg at hlt; exact hlt⟩
      · by_contra hgt
        exact h2 ⟨rfl, by push_neg at hgt; exact hgt⟩
  | enum cur dft consts =>
    rw [cvarSetInt64.eq_def]
    dsimp only
    split
    · split
      · intro _; trivial
      · intro h; simp at h
    · intro _; trivial
  | str cur dft allowed =>
    rw [cvarSetInt64.eq_def]
    dsimp only
    split
    · split_ifs
      · intro _; trivial
      · intro h; simp at h
    · intro _; trivial

theorem cvarSetDouble_inRange (ffmt : ℚ → List Char) (d : CVarData) (q : ℚ) :
    (cvarSetDouble ffmt d q true).1 = true →
      dataInRange (cvarSetDouble ffmt d q true).2 := by
  cases d with
  | int cur dft r =>
    rw [cvarSetDouble]
    split_ifs with h1 h2
    · intro h; simp at h
    · intro h; simp at h
    · intro _
      have hge : (r.1 : ℚ) ≤ q := by
        by_contra hlt
        exact h1 ⟨rfl, by push_neg at hlt; exact hlt⟩
      have hle : q ≤ (r.2 : ℚ) := by
        by_contra hgt
        exact h2 ⟨rfl, by push_neg at hgt; exact hgt⟩
      exact truncQ_mem hge hle
  | bool cur dft => intro _; trivial
  | float cur dft r =>
    rw [cvarSetDouble]
    split_ifs with h1 h2
    · intro h; simp at h
    · intro h; simp at h
    · intro _
      refine ⟨?_, ?_⟩
      · by_contra hlt
        exact h1 ⟨rfl, by push_neg at hlt; exact hlt⟩
      · by_contra hgt
        exact h2 ⟨rfl, by push_neg at hgt; exact hgt⟩
  | enum cur dft consts =>
    rw [cvarSetDouble]
    exact cvarSetInt64_inRange (.enum cur dft consts) (truncQ q) NumberFormat.decimal
  | str cur dft allowed =>
    rw [cvarSetDouble.eq_def]
    dsimp only
    split
    · split_ifs
      · intro _; trivial
      · intro h; simp at h
    · intro _; trivial

theorem cvarSetString_inRange (d : CVarData) (s : List Char) :
    (cvarSetString d s true).1 = true →
      dataInRange (cvarSetString d s true).2 := by
  cases d with
  | int cur dft r =>
    rw [cvarSetString.eq_def]
    dsimp only
    cases strtollModel s with
    | none => intro h; simp at h
    | some temp => exact cvarSetInt64_inRange (.int cur dft r) temp NumberFormat.decimal
  | bool cur dft =>
    rw [cvarSetString.eq_def]
    dsimp only
    cases boolFromString defaultBoolStrings s with
    | some b => intro _; trivial
    | none => intro h; simp at h
  | float cur dft r =>
    rw [cvarSetString.eq_def]
    dsimp only
    cases strtodModel s with
    | none => intro h; simp at h
    | some temp => exact cvarSetDouble_inRange (fun _ => []) (.float cur dft r) temp
  | enum cur dft consts =>
    rw [cvarSetString.eq_def]
    dsimp only
    split
    · split
      · intro _; trivial
      · intro h; simp at h
    · split
      · intro h; simp at h
      · intro _; trivial
  | str cur dft allowed =>
    rw [cvarSetString.eq_def]
    dsimp only
    split
    · split_ifs
      · intro _; trivial
      · intro h; simp at h
    · intro _; trivial

theorem setIntValue_eq (cv : CVarState) (v : Int) (hw : cv.isWritable = true) :
    cv.setIntValue v =
      ((cvarSetInt64 cv.data v cv.flags.rangeCheck cv.numberFormat).1,
       if (cvarSetInt64 cv.data v cv.flags.rangeCheck cv.numberFormat).1 then
         CVarState.setModifiedFlag
           { cv with data := (cvarSetInt64 cv.data v cv.flags.rangeCheck cv.numberFormat).2 }
       else { cv with data := (cvarSetInt64 cv.data v cv.flags.rangeCheck cv.numberFormat).2 }) := by
  rw [CVarState.setIntValue, if_neg (by simp [hw])]
  rcases h : cvarSetInt64 cv.data v cv.flags.rangeCheck cv.numberFormat with ⟨ok, d2⟩
  cases ok <;> simp

theorem setBoolValue_eq (cv : CVarState) (b : Bool) (hw : cv.isWritable = true) :
    cv.setBoolValue b =
      ((cvarSetInt64 cv.data (if b then 1 else 0) cv.flags.rangeCheck cv.numberFormat).1,
       if (cvarSetInt64 cv.data (if b then 1 else 0) cv.flags.rangeCheck cv.numberFormat).1 then
         CVarState.setModifiedFlag
           { cv with data := (cvarSetInt64 cv.data (if b then 1 else 0) cv.flags.rangeCheck cv.numberFormat).2 }
       else { cv with data := (cvarSetInt64 cv.data (if b then 1 else 0) cv.flags.rangeCheck cv.numberFormat).2 }) := by
  rw [CVarState.setBoolValue, if_neg (by simp [hw])]
  rcases h : cvarSetInt64 cv.data (if b then 1 else 0) cv.flags.rangeCheck cv.numberFormat
    with ⟨ok, d2⟩
  cases ok <;> simp

theorem setFloatValue_eq (ffmt : ℚ → List Char) (cv : CVarState) (q : ℚ)
    (hw : cv.isWritable = true) :
    CVarState.setFloatValue ffmt cv q =
      ((cvarSetDouble ffmt cv.data q cv.flags.rangeCheck).1,
       if (cvarSetDouble ffmt cv.data q cv.flags.rangeCheck).1 then
         CVarState.setModifiedFlag
           { cv with data := (cvarSetDouble ffmt cv.data q cv.flags.rangeCheck).2 }
       else { cv with data := (cvarSetDouble ffmt cv.data q cv.flags.rangeCheck).2 }) := by
  rw [CVarState.setFloatValue, if_neg (by simp [hw])]
  rcases h : cvarSetDouble ffmt cv.data q cv.flags.rangeCheck with ⟨ok, d2⟩
  cases ok <;> simp

theorem setStringValue_eq (cv : CVarState) (s : List Char) (hw : cv.isWritable = true) :
    cv.setStringValue s =
      ((cvarSetString cv.data s cv.flags.rangeCheck).1,
       if (cvarSetString cv.data s cv.flags.rangeCheck).1 then
         CVarState.setModifiedFlag
           { cv with data := (cvarSetString cv.data s cv.flags.rangeCheck).2 }
       else { cv with data := (cvarSetString cv.data s cv.flags.rangeCheck).2 }) := by
  rw [CVarState.setStringValue, if_neg (by simp [hw])]
  rcases h : cvarSetString cv.data s cv.flags.rangeCheck with ⟨ok, d2⟩
  cases ok <;> simp

theorem setIntValue_notWritable (cv : CVarState) (v : Int)
    (hw : cv.isWritable = false) : cv.setIntValue v = (false, cv) := by
  rw [CVarState.setIntValue, if_pos (by simp [hw])]

theorem setBoolValue_notWritable (cv : CVarState) (b : Bool)
    (hw : cv.isWritable = false) : cv.setBoolValue b = (false, cv) := by
  rw [CVarState.setBoolValue, if_pos (by simp [hw])]

theorem setFloatValue_notWritable (ffmt : ℚ → List Char) (cv : CVarState) (q : ℚ)
    (hw : cv.isWritable = false) : CVarState.setFloatValue ffmt cv q = (false, cv) := by
  rw [CVarState.setFloatValue, if_pos (by simp [hw])]

theorem setStringValue_notWritable (cv : CVarState) (s : List Char)
    (hw : cv.isWritable = false) : cv.setStringValue s = (false, cv) := by
  rw [CVarState.setStringValue, if_pos (by simp [hw])]

theorem setStringValueIgnoreRO_eq (cv : CVarState) (s : List Char)
    (rom ini : Bool)
    (h1 : ¬(cv.flags.readOnly = true ∧ ¬rom = true))
    (h2 : ¬(cv.flags.initOnly = true ∧ ¬ini = true)) :
    cv.setStringValueIgnoreRO s rom ini =
      ((cvarSetString cv.data s cv.flags.rangeCheck).1,
       { cv with data := (cvarSetString cv.data s cv.flags.rangeCheck).2 }) := by
  rw [CVarState.setStringValueIgnoreRO, if_neg (by exact_mod_cast h1),
    if_neg (by exact_mod_cast h2)]
  rcases h : cvarSetString cv.data s cv.flags.rangeCheck with ⟨ok, d2⟩
  cases ok <;> simp

theorem cvarSetInt64_outOfRange (cur dft : Int) (r : Int × Int) (v : Int)
    (fmt : NumberFormat) (hout : v < r.1 ∨ r.2 < v) :
    cvarSetInt64 (.int cur dft r) v true fmt = (false, .int cur dft r) := by
  rw [cvarSetInt64]
  by_cases hlt : v < r.1
  · rw [if_pos ⟨rfl, hlt⟩]
  · rw [if_neg (by simp [hlt]), if_pos ⟨rfl, by omega⟩]

theorem cvarSetDouble_outOfRange (ffmt : ℚ → List Char) (cur dft : ℚ)
    (r : ℚ × ℚ) (q : ℚ) (hout : q < r.1 ∨ r.2 < q) :
    cvarSetDouble ffmt (.float cur dft r) q true = (false, .float cur dft r) := by
  rw [cvarSetDouble]
  by_cases hlt : q < r.1
  · rw [if_pos ⟨rfl, hlt⟩]
  · rw [if_neg (by simp [hlt]),
      if_pos ⟨rfl, by rcases hout with h | h; exacts [absurd h hlt, h]⟩]

theorem cvarSetString_int_outOfRange (cur dft : Int) (r : Int × Int)
    (s : List Char) (v : Int) (hp : strtollModel s = some v)
    (hout : v < r.1 ∨ r.2 < v) :
    cvarSetString (.int cur dft r) s true = (false, .int cur dft r) := by
  rw [cvarSetString.eq_def]
  dsimp only
  rw [hp]
  exact cvarSetInt64_outOfRange cur dft r v NumberFormat.decimal hout

/-- C2: on a CVar whose `RangeCheck` flag is set, every successful write
through `setIntValue`, `setFloatValue`, `setStringValue` or the privileged
internal string setter leaves the stored numeric value inside the declared
[min, max] range, and a write whose (converted) value lies outside the
range fails with the state unchanged. -/
theorem C2_rangeCheck_writes (cv : CVarState) (hrc : cv.flags.rangeCheck = true) :
    (∀ v, (cv.setIntValue v).1 = true → dataInRange (cv.setIntValue v).2.data) ∧
    (∀ ffmt q, (CVarState.setFloatValue ffmt cv q).1 = true →
      dataInRange (CVarState.setFloatValue ffmt cv q).2.data) ∧
    (∀ s, (cv.setStringValue s).1 = true →
      dataInRange (cv.setStringValue s).2.data) ∧
    (∀ rom ini s, (internalSetStringValue rom ini cv s).1 = true →
      dataInRange (internalSetStringValue rom ini cv s).2.data) ∧
    (∀ v cur dft mn mx, cv.data = .int cur dft (mn, mx) → (v < mn ∨ mx < v) →
      cv.setIntValue v = (false, cv)) ∧
    (∀ ffmt q cur dft mn mx, cv.data = .float cur dft (mn, mx) → (q < mn ∨ mx < q) →
      CVarState.setFloatValue ffmt cv q = (false, cv)) ∧
    (∀ s v cur dft mn mx, cv.data = .int cur dft (mn, mx) →
      strtollModel s = some v → (v < mn ∨ mx < v) →
      cv.setStringValue s = (false, cv)) := by
  have hdata : ∀ d2, ({ cv with data := d2 } : CVarState).data = d2 := fun _ => rfl
  refine ⟨?_, ?_, ?_, ?_, ?_, ?_, ?_⟩
  · intro v
    cases hw : cv.isWritable with
    | false => rw [setIntValue_notWritable cv v hw]; intro h; simp at h
    | true =>
      rw [setIntValue_eq cv v hw]
      simp only [hrc]
      intro hok
      rw [if_pos hok]
      exact cvarSetInt64_inRange cv.data v cv.numberFormat hok
  · intro ffmt q
    cases hw : cv.isWritable with
    | false => rw [setFloatValue_notWritable ffmt cv q hw]; intro h; simp at h
    | true =>
      rw [setFloatValue_eq ffmt cv q hw]
      simp only [hrc]
      intro hok
      rw [if_pos hok]
      exact cvarSetDouble_inRange ffmt cv.data q hok
  · intro s
    cases hw : cv.isWritable with
    | false => rw [setStringValue_notWritable cv s hw]; intro h; simp at h
    | true =>
      rw [setStringValue_eq cv s hw]
      simp only [hrc]
      intro hok
      rw [if_pos hok]
      exact cvarSetString_inRange cv.data s hok
  · intro rom ini s
    rw [internalSetStringValue]
    split
    · rename_i hgate
      by_cases h1 : cv.flags.readOnly = true ∧ ¬rom = true
      · rw [CVarState.setStringValueIgnoreRO, if_pos (by exact_mod_cast h1)]
        intro h; simp at h
      by_cases h2 : cv.flags.initOnly = true ∧ ¬ini = true
      · rw [CVarState.setStringValueIgnoreRO, if_neg (by exact_mod_cast h1),
          if_pos (by exact_mod_cast h2)]
        intro h; simp at h
      rw [setStringValueIgnoreRO_eq cv s rom ini h1 h2]
      simp only [hrc]
      intro hok
      exact cvarSetString_inRange cv.data s hok
    · cases hw : cv.isWritable with
      | false => rw [setStringValue_notWritable cv s hw]; intro h; simp at h
      | true =>
        rw [setStringValue_eq cv s hw]
        simp only [hrc]
        intro hok
        rw [if_pos hok]
        exact cvarSetString_inRange cv.data s hok
  · intro v cur dft mn mx hd hout
    cases hw : cv.isWritable with
    | false => exact setIntValue_notWritable cv v hw
    | true =>
      rw [setIntValue_eq cv v hw, hd, hrc,
        cvarSetInt64_outOfRange cur dft (mn, mx) v cv.numberFormat hout]
      simp only [if_neg (by simp : ¬false = true)]
      rw [← hd]
  · intro ffmt q cur dft mn mx hd hout
    cases hw : cv.isWritable with
    | false => exact setFloatValue_notWritable ffmt cv q hw
    | true =>
      rw [setFloatValue_eq ffmt cv q hw, hd, hrc,
        cvarSetDouble_outOfRange ffmt cur dft (mn, mx) q hout]
      simp only [if_neg (by simp : ¬false = true)]
      rw [← hd]
  · intro s v cur dft mn mx hd hp hout
    cases hw : cv.isWritable with
    | false => exact setStringValue_notWritable cv s hw
    | true =>
      rw [setStringValue_eq cv s hw, hd, hrc,
        cvarSetString_int_outOfRange cur dft (mn, mx) s v hp hout]
      simp only [if_neg (by simp : ¬false = true)]
      rw [← hd]

/-- Witness for C2: a concrete range-checked Int CVar accepting 60 and
rejecting 500 (spec scenario `fps` with range [1, 240]). -/
theorem C2_witness :
    (let fps : CVarState :=
      ⟨.int 60 60 (1, 240), NumberFormat.decimal,
        ⟨false, false, false, false, false, true, false⟩⟩
    (fps.setIntValue 120).1 = true ∧
      dataInRange (fps.setIntValue 120).2.data ∧
      fps.setIntValue 500 = (false, fps)) := by
  refine ⟨by decide, ?_, ?_⟩
  · exact (C2_rangeCheck_writes _ rfl).1 120 (by decide)
  · exact (C2_rangeCheck_writes _ rfl).2.2.2.2.1 500 60 60 1 240 rfl (by norm_num)

theorem cvarSetInt64_fail (d : CVarData) (v : Int) (rc : Bool)
    (fmt : NumberFormat) :
    (cvarSetInt64 d v rc fmt).1 = false → (cvarSetInt64 d v rc fmt).2 = d := by
  cases d with
  | int cur dft r =>
    rw [cvarSetInt64]
    split_ifs
    · intro _; rfl
    · intro _; rfl
    · intro h; simp at h
  | bool cur dft => intro h; simp [cvarSetInt64] at h
  | float cur dft r =>
    rw [cvarSetInt64]
    split_ifs
    · intro _; rfl
    · intro _; rfl
    · intro h; simp at h
  | enum cur dft consts =>
    rw [cvarSetInt64.eq_def]
    dsimp only
    split
    · split
      · intro h; simp at h
      · intro _; rfl
    · intro h; simp at h
  | str cur dft allowed =>
    rw [cvarSetInt64.eq_def]
    dsimp only
    split
    · split_ifs
      · intro h; simp at h
      · intro _; rfl
    · intro h; simp at h

theorem cvarSetDouble_fail (ffmt : ℚ → List Char) (d : CVarData) (q : ℚ)
    (rc : Bool) :
    (cvarSetDouble ffmt d q rc).1 = false → (cvarSetDouble ffmt d q rc).2 = d := by
  cases d with
  | int cur dft r =>
    rw [cvarSetDouble]
    split_ifs
    · intro _; rfl
    · intro _; rfl
    · intro h; simp at h
  | bool cur dft => intro h; simp [cvarSetDouble] at h
  | float cur dft r =>
    rw [cvarSetDouble]
    split_ifs
    · intro _; rfl
    · intro _; rfl
    · intro h; simp at h
  | enum cur dft consts =>
    rw [cvarSetDouble]
    exact cvarSetInt64_fail (.enum cur dft consts) (truncQ q) rc NumberFormat.decimal
  | str cur dft allowed =>
    rw [cvarSetDouble.eq_def]
    dsimp only
    split
    · split_ifs
      · intro h; simp at h
      · intro _; rfl
    · intro h; simp at h

theorem cvarSetString_fail (d : CVarData) (s : List Char) (rc : Bool) :
    (cvarSetString d s rc).1 = false → (cvarSetString d s rc).2 = d := by
  cases d with
  | int cur dft r =>
    rw [cvarSetString.eq_def]
    dsimp only
    cases strtollModel s with
    | none => intro _; rfl
    | some temp => exact cvarSetInt64_fail (.int cur dft r) temp rc NumberFormat.decimal
  | bool cur dft =>
    rw [cvarSetString.eq_def]
    dsimp only
    cases boolFromString defaultBoolStrings s with
    | some b => intro h; simp at h
    | none => intro _; rfl
  | float cur dft r =>
    rw [cvarSetString.eq_def]
    dsimp only
    cases strtodModel s with
    | none => intro _; rfl
    | some temp => exact cvarSetDouble_fail (fun _ => []) (.float cur dft r) temp rc
  | enum cur dft consts =>
    rw [cvarSetString.eq_def]
    dsimp only
    split
    · split
      · intro h; simp at h
      · intro _; rfl
    · split
      · intro _; rfl
      · intro h; simp at h
  | str cur dft allowed =>
    rw [cvarSetString.eq_def]
    dsimp only
    split
    · split_ifs
      · intro h; simp at h
      · intro _; rfl
    · intro h; simp at h

theorem setter_fail_unchanged_int (cv : CVarState) (v : Int) :
    (cv.setIntValue v).1 = false → (cv.setIntValue v).2 = cv := by
  cases hw : cv.isWritable with
  | false => rw [setIntValue_notWritable cv v hw]; intro _; rfl
  | true =>
    rw [setIntValue_eq cv v hw]
    intro hfail
    dsimp only at hfail ⊢
    rw [if_neg (by simp [hfail])]
    rw [show ({ cv with data := (cvarSetInt64 cv.data v cv.flags.rangeCheck cv.numberFormat).2 } :
        CVarState) = { cv with data := cv.data } from by
      rw [cvarSetInt64_fail cv.data v cv.flags.rangeCheck cv.numberFormat hfail]]

theorem setter_fail_unchanged_bool (cv : CVarState) (b : Bool) :
    (cv.setBoolValue b).1 = false → (cv.setBoolValue b).2 = cv := by
  cases hw : cv.isWritable with
  | false => rw [setBoolValue_notWritable cv b hw]; intro _; rfl
  | true =>
    rw [setBoolValue_eq cv b hw]
    intro hfail
    dsimp only at hfail ⊢
    rw [if_neg (by simp [hfail])]
    rw [show ({ cv with data := (cvarSetInt64 cv.data (if b then 1 else 0)
        cv.flags.rangeCheck cv.numberFormat).2 } : CVarState) =
        { cv with data := cv.data } from by
      rw [cvarSetInt64_fail cv.data (if b then 1 else 0) cv.flags.rangeCheck
        cv.numberFormat hfail]]

theorem setter_fail_unchanged_float (ffmt : ℚ → List Char) (cv : CVarState) (q : ℚ) :
    (CVarState.setFloatValue ffmt cv q).1 = false →
      (CVarState.setFloatValue ffmt cv q).2 = cv := by
  cases hw : cv.isWritable with
  | false => rw [setFloatValue_notWritable ffmt cv q hw]; intro _; rfl
  | true =>
    rw [setFloatValue_eq ffmt cv q hw]
    intro hfail
    dsimp only at hfail ⊢
    rw [if_neg (by simp [hfail])]
    rw [show ({ cv with data := (cvarSetDouble ffmt cv.data q cv.flags.rangeCheck).2 } :
        CVarState) = { cv with data := cv.data } from by
      rw [cvarSetDouble_fail ffmt cv.data q cv.flags.rangeCheck hfail]]

theorem setter_fail_unchanged_string (cv : CVarState) (s : List Char) :
    (cv.setStringValue s).1 = false → (cv.setStringValue s).2 = cv := by
  cases hw : cv.isWritable with
  | false => rw [setStringValue_notWritable cv s hw]; intro _; rfl
  | true =>
    rw [setStringValue_eq cv s hw]
    intro hfail
    dsimp only at hfail ⊢
    rw [if_neg (by simp [hfail])]
    rw [show ({ cv with data := (cvarSetString cv.data s cv.flags.rangeCheck).2 } :
        CVarState) = { cv with data := cv.data } from by
      rw [cvarSetString_fail cv.data s cv.flags.rangeCheck hfail]]

theorem notWritable_of_flags {cv : CVarState}
    (h : cv.flags.readOnly = true ∨ cv.flags.initOnly = true) :
    cv.isWritable = false := by
  rw [CVarState.isWritable]
  rcases h with h | h <;> simp [h]

/-- C4, counterexample: without the RangeCheck flag the allowed-string
list is not passed down to the write (`isRangeChecked() ? &valueRange :
nullptr`, cfg.cpp line 2058), so a String CVar carrying an allowed list
accepts and stores a non-member string - the claimed unconditional
allowed-set failure does not occur. -/
theorem C4_counterexample :
    (let cv : CVarState :=
      ⟨.str "cold".toList "cold".toList
          (some ["cold".toList, "warm".toList]),
        NumberFormat.decimal,
        ⟨false, false, false, false, false, false, false⟩⟩
    "hot".toList ∉ ["cold".toList, "warm".toList] ∧
      (cv.setStringValue "hot".toList).1 = true ∧
      (cv.setStringValue "hot".toList).2.data =
        .str "hot".toList "cold".toList
          (some ["cold".toList, "warm".toList])) := by
  exact ⟨by decide, by decide, by decide⟩

/-- C4 (amended): every failed CVar write is atomic.  A public set* call on
a CVar with ReadOnly or InitOnly fails with the state unchanged; any failed
set* leaves the state unchanged; and a setStringValue whose string does not
parse as the target numeric type, or whose converted value violates the
range (see C2) or allowed-set constraint - constraints the setter passes
down only when the RangeCheck flag is set - fails with the previous value
retained. -/
theorem C4_failedWrites_amended :
    (∀ (cv : CVarState),
      (cv.flags.readOnly = true ∨ cv.flags.initOnly = true) →
      (∀ v, cv.setIntValue v = (false, cv)) ∧
      (∀ b, cv.setBoolValue b = (false, cv)) ∧
      (∀ ffmt q, CVarState.setFloatValue ffmt cv q = (false, cv)) ∧
      (∀ s, cv.setStringValue s = (false, cv))) ∧
    (∀ (cv : CVarState) v, (cv.setIntValue v).1 = false →
      (cv.setIntValue v).2 = cv) ∧
    (∀ (cv : CVarState) b, (cv.setBoolValue b).1 = false →
      (cv.setBoolValue b).2 = cv) ∧
    (∀ ffmt (cv : CVarState) q, (CVarState.setFloatValue ffmt cv q).1 = false →
      (CVarState.setFloatValue ffmt cv q).2 = cv) ∧
    (∀ (cv : CVarState) s, (cv.setStringValue s).1 = false →
      (cv.setStringValue s).2 = cv) ∧
    (∀ (cv : CVarState) s cur dft r, cv.data = .int cur dft r →
      strtollModel s = none → cv.setStringValue s = (false, cv)) ∧
    (∀ (cv : CVarState) s cur dft r, cv.data = .float cur dft r →
      strtodModel s = none → cv.setStringValue s = (false, cv)) ∧
    (∀ (cv : CVarState) s cur dft al, cv.data = .str cur dft (some al) →
      cv.flags.rangeCheck = true →
      s ∉ al → cv.setStringValue s = (false, cv)) := by
  have hstr_fail : ∀ (cv : CVarState) s,
      (cvarSetString cv.data s cv.flags.rangeCheck).1 = false →
      cv.setStringValue s = (false, cv) := by
    intro cv s hf
    cases hw : cv.isWritable with
    | false => exact setStringValue_notWritable cv s hw
    | true =>
      rw [setStringValue_eq cv s hw, hf]
      rw [if_neg (by simp)]
      rw [show ({ cv with data := (cvarSetString cv.data s cv.flags.rangeCheck).2 } :
          CVarState) = { cv with data := cv.data } from by
        rw [cvarSetString_fail cv.data s cv.flags.rangeCheck hf]]
  refine ⟨?_, setter_fail_unchanged_int, setter_fail_unchanged_bool,
    setter_fail_unchanged_float, setter_fail_unchanged_string, ?_, ?_, ?_⟩
  · intro cv h
    have hw := notWritable_of_flags h
    exact ⟨fun v => setIntValue_notWritable cv v hw,
      fun b => setBoolValue_notWritable cv b hw,
      fun ffmt q => setFloatValue_notWritable ffmt cv q hw,
      fun s => setStringValue_notWritable cv s hw⟩
  · intro cv s cur dft r hd hp
    refine hstr_fail cv s ?_
    rw [hd, cvarSetString.eq_def]
    dsimp only
    rw [hp]
  · intro cv s cur dft r hd hp
    refine hstr_fail cv s ?_
    rw [hd, cvarSetString.eq_def]
    dsimp only
    rw [hp]
  · intro cv s cur dft al hd hrc hnm
    refine hstr_fail cv s ?_
    rw [hd, cvarSetString.eq_def]
    dsimp only
    rw [hrc, checkedList_true]
    dsimp only
    rw [if_neg hnm]

/-- Witness for C4 (amended): a ReadOnly string CVar rejects a write
unchanged, a parse failure on an Int CVar leaves it unchanged, and a
RangeCheck-flagged String CVar rejects a non-member string unchanged. -/
theorem C4_witness :
    (let ro : CVarState :=
      ⟨.str "warm".toList "cold".toList none, NumberFormat.decimal,
        ⟨false, false, false, true, false, false, false⟩⟩
    ro.setStringValue "hot".toList = (false, ro)) ∧
    (let iv : CVarState :=
      ⟨.int 60 60 (1, 240), NumberFormat.decimal,
        ⟨false, false, false, false, false, true, false⟩⟩
    iv.setStringValue "abc".toList = (false, iv)) ∧
    (let sv : CVarState :=
      ⟨.str "cold".toList "cold".toList
          (some ["cold".toList, "warm".toList]),
        NumberFormat.decimal,
        ⟨false, false, false, false, false, true, false⟩⟩
    sv.setStringValue "hot".toList = (false, sv)) := by
  refine ⟨?_, ?_, ?_⟩
  · exact (C4_failedWrites_amended.1 _ (Or.inl rfl)).2.2.2 _
  · exact C4_failedWrites_amended.2.2.2.2.2.1 _ "abc".toList 60 60 (1, 240) rfl
      (by decide)
  · exact C4_failedWrites_amended.2.2.2.2.2.2.2 _ "hot".toList "cold".toList
      "cold".toList ["cold".toList, "warm".toList] rfl rfl (by decide)

/-- C3, counterexample: on a writable CVar the privileged internal setter
delegates to the public `setStringValue`, which sets the Modified flag on
success — even while the override switches are on, as during config-file
replay. -/
theorem C3_counterexample :
    (let cv : CVarState :=
      ⟨.int 0 0 (0, 0), NumberFormat.decimal,
        ⟨false, false, false, false, false, false, false⟩⟩
    (internalSetStringValue true true cv "1".toList).1 = true ∧
      ((internalSetStringValue true true cv "1".toList).2).flags.modified = true ∧
      cv.flags.modified = false) := by
  exact ⟨by decide, by decide, by decide⟩

/-- C3 (amended): the privileged internal setters skip the Modified flag
exactly when they take the IgnoreRO path, i.e. when the CVar is not
writable and at least one override switch is on; when the CVar is writable,
or both overrides are off, they delegate to the public setter.  Every
successful write through the public set* interface sets Modified. -/
theorem C3_modified_amended :
    (∀ rom ini (cv : CVarState) s, cv.isWritable = false →
      (rom = true ∨ ini = true) →
      ((internalSetStringValue rom ini cv s).2).flags.modified =
        cv.flags.modified) ∧
    (∀ rom ini (cv : CVarState), cv.isWritable = false →
      (rom = true ∨ ini = true) →
      ((internalSetDefaultValue rom ini cv).2).flags.modified =
        cv.flags.modified) ∧
    (∀ rom ini (cv : CVarState) s,
      cv.isWritable = true ∨ (rom = false ∧ ini = false) →
      internalSetStringValue rom ini cv s = cv.setStringValue s) ∧
    (∀ (cv : CVarState) v, (cv.setIntValue v).1 = true →
      ((cv.setIntValue v).2).flags.modified = true) ∧
    (∀ (cv : CVarState) b, (cv.setBoolValue b).1 = true →
      ((cv.setBoolValue b).2).flags.modified = true) ∧
    (∀ ffmt (cv : CVarState) q, (CVarState.setFloatValue ffmt cv q).1 = true →
      ((CVarState.setFloatValue ffmt cv q).2).flags.modified = true) ∧
    (∀ (cv : CVarState) s, (cv.setStringValue s).1 = true →
      ((cv.setStringValue s).2).flags.modified = true) := by
  refine ⟨?_, ?_, ?_, ?_, ?_, ?_, ?_⟩
  · intro rom ini cv s hw hov
    rw [internalSetStringValue, if_pos ⟨by simp [hw], hov⟩,
      CVarState.setStringValueIgnoreRO]
    split
    · rfl
    split
    · rfl
    rcases h : cvarSetString cv.data s cv.flags.rangeCheck with ⟨ok, d2⟩
    cases ok <;> rfl
  · intro rom ini cv hw hov
    rw [internalSetDefaultValue, if_pos ⟨by simp [hw], hov⟩,
      CVarState.setDefaultValueIgnoreRO]
    split
    · rfl
    split
    · rfl
    rfl
  · intro rom ini cv s hcase
    rw [internalSetStringValue]
    rcases hcase with hw | ⟨hr, hi⟩
    · rw [if_neg (by simp [hw])]
    · rw [if_neg (by simp [hr, hi])]
  · intro cv v
    cases hw : cv.isWritable with
    | false => rw [setIntValue_notWritable cv v hw]; intro h; simp at h
    | true =>
      rw [setIntValue_eq cv v hw]
      intro hok
      dsimp only at hok ⊢
      rw [if_pos hok]
      rfl
  · intro cv b
    cases hw : cv.isWritable with
    | false => rw [setBoolValue_notWritable cv b hw]; intro h; simp at h
    | true =>
      rw [setBoolValue_eq cv b hw]
      intro hok
      dsimp only at hok ⊢
      rw [if_pos hok]
      rfl
  · intro ffmt cv q
    cases hw : cv.isWritable with
    | false => rw [setFloatValue_notWritable ffmt cv q hw]; intro h; simp at h
    | true =>
      rw [setFloatValue_eq ffmt cv q hw]
      intro hok
      dsimp only at hok ⊢
      rw [if_pos hok]
      rfl
  · intro cv s
    cases hw : cv.isWritable with
    | false => rw [setStringValue_notWritable cv s hw]; intro h; simp at h
    | true =>
      rw [setStringValue_eq cv s hw]
      intro hok
      dsimp only at hok ⊢
      rw [if_pos hok]
      rfl

/-- Witness for C3 (amended): an InitOnly CVar written through the
privileged setter with the InitOnly override on keeps Modified clear
(the spec scenario `+set boot.mode warm`), and a public write on a plain
CVar sets Modified. -/
theorem C3_witness :
    (let boot : CVarState :=
      ⟨.str "cold".toList "cold".toList none, NumberFormat.decimal,
        ⟨false, false, false, false, true, false, false⟩⟩
    ((internalSetStringValue false true boot "warm".toList).2).flags.modified =
      boot.flags.modified) ∧
    (let plain : CVarState :=
      ⟨.int 0 0 (0, 0), NumberFormat.decimal,
        ⟨false, false, false, false, false, false, false⟩⟩
    ((plain.setIntValue 7).2).flags.modified = true) := by
  constructor
  · exact C3_modified_amended.1 false true _ "warm".toList (by decide) (Or.inr rfl)
  · exact C3_modified_amended.2.2.2.1 _ 7 (by decide)

/-- C8, counterexample: the enum constant list is consulted only when the
RangeCheck flag is set (`isRangeChecked() ? &valueRange : nullptr`).  With
RangeCheck set, an Enum CVar with constants A=1, B=2 rejects the numeric
literal "1" even though 1 is a member value (only constant names are
compared); with RangeCheck clear the same CVar rejects the symbolic name
"B" and instead accepts "1" numerically, storing it with an empty name.
Both directions contradict the claimed name-or-numeric acceptance. -/
theorem C8_counterexample :
    (let e1 : CVarState :=
      ⟨.enum ⟨"A".toList, 1⟩ ⟨"A".toList, 1⟩
          (some [("A".toList, 1), ("B".toList, 2)]),
        NumberFormat.decimal, ⟨false, false, false, false, false, true, false⟩⟩
    (e1.setStringValue "1".toList).1 = false ∧
      (e1.setStringValue "1".toList).2 = e1 ∧
      strtollModel "1".toList = some 1 ∧
      (∃ p ∈ [("A".toList, (1 : Int)), ("B".toList, 2)], p.2 = 1)) ∧
    (let e0 : CVarState :=
      ⟨.enum ⟨"A".toList, 1⟩ ⟨"A".toList, 1⟩
          (some [("A".toList, 1), ("B".toList, 2)]),
        NumberFormat.decimal, ⟨false, false, false, false, false, false, false⟩⟩
    (e0.setStringValue "B".toList).1 = false ∧
      (∃ p ∈ [("A".toList, (1 : Int)), ("B".toList, 2)], p.1 = "B".toList) ∧
      (e0.setStringValue "1".toList).1 = true ∧
      (e0.setStringValue "1".toList).2.data =
        .enum ⟨[], 1⟩ ⟨"A".toList, 1⟩
          (some [("A".toList, 1), ("B".toList, 2)])) := by
  exact ⟨⟨by decide, by decide, by decide, by decide⟩,
    ⟨by decide, by decide, by decide, by decide⟩⟩

/-- C8 (amended): an Enum CVar's constant list is passed to the write only
when the RangeCheck flag is set.  With RangeCheck and a constant list,
assigning from a string succeeds exactly when the string equals one of the
symbolic constant names (numeric literals are rejected), and on success the
stored constant is that member.  With RangeCheck clear, or with no constant
list, the string must parse as an integer and is stored with an empty
symbolic name.  The string form emitted is the stored symbolic name when
one is present, otherwise the numeric rendering. -/
theorem C8_enum_amended :
    (∀ (cv : CVarState) cur dft cl s, cv.data = .enum cur dft (some cl) →
      cv.isWritable = true → cv.flags.rangeCheck = true →
      (((cv.setStringValue s).1 = true) ↔ (∃ p ∈ cl, p.1 = s)) ∧
      (∀ p, cl.find? (fun c => c.1 == s) = some p →
        (cv.setStringValue s).2.data = .enum ⟨p.1, p.2⟩ dft (some cl))) ∧
    (∀ (cv : CVarState) cur dft consts s, cv.data = .enum cur dft consts →
      cv.isWritable = true →
      (cv.flags.rangeCheck = false ∨ consts = none) →
      (((cv.setStringValue s).1 = true) ↔ ∃ v, strtollModel s = some v) ∧
      (∀ v, strtollModel s = some v →
        (cv.setStringValue s).2.data = .enum ⟨[], v⟩ dft consts)) ∧
    (∀ e fmt, e.name ≠ [] → cvarEnumToString e fmt = e.name) ∧
    (∀ e fmt, e.name = [] → cvarEnumToString e fmt = cvarIntToString e.value fmt) := by
  refine ⟨?_, ?_, ?_, ?_⟩
  · intro cv cur dft cl s hd hw hrc
    rw [setStringValue_eq cv s hw, hd]
    rw [cvarSetString.eq_def]
    dsimp only
    rw [hrc, checkedList_true]
    dsimp only
    constructor
    · cases hf : cl.find? (fun c => c.1 == s) with
      | some p =>
        constructor
        · intro _
          have hmem := List.mem_of_find?_eq_some hf
          have hpred := List.find?_some hf
          exact ⟨p, hmem, by simpa using hpred⟩
        · intro _; rfl
      | none =>
        constructor
        · intro h; simp at h
        · rintro ⟨p, hmem, hps⟩
          have := List.find?_eq_none.mp hf p hmem
          simp [hps] at this
    · intro p hf
      rw [hf]
      rfl
  · intro cv cur dft consts s hd hw hnl
    have hnone : checkedList cv.flags.rangeCheck consts = none := by
      rcases hnl with hrc | hcn
      · rw [hrc, checkedList_false]
      · rw [hcn, checkedList_none]
    rw [setStringValue_eq cv s hw, hd]
    rw [cvarSetString.eq_def]
    dsimp only
    rw [hnone]
    dsimp only
    constructor
    · cases hp : strtollModel s with
      | some v =>
        constructor
        · intro _; exact ⟨v, rfl⟩
        · intro _; rfl
      | none =>
        constructor
        · intro h; simp at h
        · rintro ⟨v, hv⟩; simp at hv
    · intro v hv
      rw [hv]
      rfl
  · intro e fmt hne
    rw [cvarEnumToString, if_pos (by simpa using hne)]
  · intro e fmt he
    rw [cvarEnumToString, if_neg (by simp [he])]

/-- Witness for C8 (amended): with RangeCheck set, assigning the symbolic
name "B" succeeds and stores B=2; with RangeCheck clear, assigning "7"
succeeds numerically and stores it with an empty name; the stored constant
renders as its name. -/
theorem C8_witness :
    (let e1 : CVarState :=
      ⟨.enum ⟨"A".toList, 1⟩ ⟨"A".toList, 1⟩
          (some [("A".toList, 1), ("B".toList, 2)]),
        NumberFormat.decimal, ⟨false, false, false, false, false, true, false⟩⟩
    ((e1.setStringValue "B".toList).1 = true) ∧
      (e1.setStringValue "B".toList).2.data =
        .enum ⟨"B".toList, 2⟩ ⟨"A".toList, 1⟩
          (some [("A".toList, 1), ("B".toList, 2)])) ∧
    (let e0 : CVarState :=
      ⟨.enum ⟨"A".toList, 1⟩ ⟨"A".toList, 1⟩
          (some [("A".toList, 1), ("B".toList, 2)]),
        NumberFormat.decimal, ⟨false, false, false, false, false, false, false⟩⟩
    ((e0.setStringValue "7".toList).1 = true) ∧
      (e0.setStringValue "7".toList).2.data =
        .enum ⟨[], 7⟩ ⟨"A".toList, 1⟩
          (some [("A".toList, 1), ("B".toList, 2)])) ∧
    cvarEnumToString ⟨"B".toList, 2⟩ NumberFormat.decimal = "B".toList := by
  refine ⟨⟨?_, ?_⟩, ⟨?_, ?_⟩, ?_⟩
  · exact ((C8_enum_amended.1
      ⟨.enum ⟨"A".toList, 1⟩ ⟨"A".toList, 1⟩
          (some [("A".toList, 1), ("B".toList, 2)]),
        NumberFormat.decimal, ⟨false, false, false, false, false, true, false⟩⟩
      ⟨"A".toList, 1⟩ ⟨"A".toList, 1⟩
      [("A".toList, 1), ("B".toList, 2)] "B".toList rfl rfl rfl).1).mpr
      ⟨("B".toList, 2), by decide, rfl⟩
  · exact (C8_enum_amended.1
      ⟨.enum ⟨"A".toList, 1⟩ ⟨"A".toList, 1⟩
          (some [("A".toList, 1), ("B".toList, 2)]),
        NumberFormat.decimal, ⟨false, false, false, false, false, true, false⟩⟩
      ⟨"A".toList, 1⟩ ⟨"A".toList, 1⟩
      [("A".toList, 1), ("B".toList, 2)] "B".toList rfl rfl rfl).2
      ("B".toList, 2) (by decide)
  · exact ((C8_enum_amended.2.1
      ⟨.enum ⟨"A".toList, 1⟩ ⟨"A".toList, 1⟩
          (some [("A".toList, 1), ("B".toList, 2)]),
        NumberFormat.decimal, ⟨false, false, false, false, false, false, false⟩⟩
      ⟨"A".toList, 1⟩ ⟨"A".toList, 1⟩
      (some [("A".toList, 1), ("B".toList, 2)]) "7".toList rfl rfl
      (Or.inl rfl)).1).mpr ⟨7, by decide⟩
  · exact (C8_enum_amended.2.1
      ⟨.enum ⟨"A".toList, 1⟩ ⟨"A".toList, 1⟩
          (some [("A".toList, 1), ("B".toList, 2)]),
        NumberFormat.decimal, ⟨false, false, false, false, false, false, false⟩⟩
      ⟨"A".toList, 1⟩ ⟨"A".toList, 1⟩
      (some [("A".toList, 1), ("B".toList, 2)]) "7".toList rfl rfl
      (Or.inl rfl)).2 7 (by decide)
  · exact C8_enum_amended.2.2.1 ⟨"B".toList, 2⟩ NumberFormat.decimal (by decide)

/-! ### C10: `CVarManagerImpl::setCVarValue*` (cfg.cpp lines 2710-2748)

The registry is the intrusive `LinkedHashTable` of CVars.  `findCVar` goes
through `findByKey`, which scans only the bucket selected by the key's hash
and matches on the full stored hash (never on names); entries in other
buckets have different hashes, and within a bucket the chain is in reverse
link order.  The search is therefore equivalent to scanning all entries
most-recently-registered first for the first full-hash match, which is how
the flat registry list below models it. -/

/-- A registered CVar: its name and state. -/
structure CVarEntry where
  name : List Char
  cv : CVarState
deriving DecidableEq

/-- The CVar registry, most recently registered first. -/
structure CVarManagerModel where
  registry : List CVarEntry
deriving DecidableEq

/-- `CVarManagerImpl::findCVar` via `LinkedHashTable::findByKey`: first
entry whose name hash equals the key hash. -/
def CVarManagerModel.findCVar (m : CVarManagerModel) (name : List Char) :
    Option CVarEntry :=
  m.registry.find? (fun e => hashOAT e.name == hashOAT name)

/-- Apply `f` to the first entry whose name hash matches, as a write
through the pointer `findByKey` returned mutates that node in place. -/
def updateFirstHash (h : Nat) (f : CVarState → CVarState) :
    List CVarEntry → List CVarEntry
  | [] => []
  | e :: rest =>
    if hashOAT e.name == h then { e with cv := f e.cv } :: rest
    else e :: updateFirstHash h f rest

/-- `INT64_MIN` as used by `setCVarValueInt` auto-registration. -/
def int64Min : Int := -(2 ^ 63)

/-- `INT64_MAX` as used by `setCVarValueInt` auto-registration. -/
def int64Max : Int := 2 ^ 63 - 1

/-- `DBL_MIN` (the smallest positive normal double) as used by
`setCVarValueFloat` auto-registration. -/
def dblMin : ℚ := 1 / 2 ^ 1022

/-- `DBL_MAX` as used by `setCVarValueFloat` auto-registration. -/
def dblMax : ℚ := (2 - 1 / 2 ^ 52) * 2 ^ 1023

/-- `validateCVarRegistration` (cfg.cpp lines 2540-2572): non-empty valid
name, no duplicate.  Registration constructs the CVar with the caller's
flags, the initial value as both current and default, Decimal format. -/
def CVarManagerModel.registerCVar (m : CVarManagerModel) (name : List Char)
    (flags : CVarFlags) (d : CVarData) : CVarManagerModel :=
  if name = [] then m
  else if ¬ isValidCVarName name then m
  else if (m.findCVar name).isSome then m
  else ⟨⟨name, ⟨d, NumberFormat.decimal, flags⟩⟩ :: m.registry⟩

/-- `CVarManagerImpl::setCVarValueInt` (cfg.cpp line 2720). -/
def CVarManagerModel.setCVarValueInt (m : CVarManagerModel) (name : List Char)
    (value : Int) (flags : CVarFlags) : CVarManagerModel :=
  match m.findCVar name with
  | some _ =>
    ⟨updateFirstHash (hashOAT name) (fun cv => (cv.setIntValue value).2) m.registry⟩
  | none => m.registerCVar name flags (.int value value (int64Min, int64Max))

/-- `CVarManagerImpl::setCVarValueBool` (cfg.cpp line 2710). -/
def CVarManagerModel.setCVarValueBool (m : CVarManagerModel) (name : List Char)
    (value : Bool) (flags : CVarFlags) : CVarManagerModel :=
  match m.findCVar name with
  | some _ =>
    ⟨updateFirstHash (hashOAT name) (fun cv => (cv.setBoolValue value).2) m.registry⟩
  | none => m.registerCVar name flags (.bool value value)

/-- `CVarManagerImpl::setCVarValueFloat` (cfg.cpp line 2730). -/
def CVarManagerModel.setCVarValueFloat (ffmt : ℚ → List Char)
    (m : CVarManagerModel) (name : List Char) (value : ℚ) (flags : CVarFlags) :
    CVarManagerModel :=
  match m.findCVar name with
  | some _ =>
    ⟨updateFirstHash (hashOAT name)
      (fun cv => (CVarState.setFloatValue ffmt cv value).2) m.registry⟩
  | none => m.registerCVar name flags (.float value value (dblMin, dblMax))

/-- `CVarManagerImpl::setCVarValueString` (cfg.cpp line 2740): registration
passes a null allowed-strings list. -/
def CVarManagerModel.setCVarValueString (m : CVarManagerModel) (name : List Char)
    (value : List Char) (flags : CVarFlags) : CVarManagerModel :=
  match m.findCVar name with
  | some _ =>
    ⟨updateFirstHash (hashOAT name) (fun cv => (cv.setStringValue value).2) m.registry⟩
  | none => m.registerCVar name flags (.str value value none)

theorem updateFirstHash_mem (h : Nat) (f : CVarState → CVarState) :
    ∀ l, ∀ e2 ∈ updateFirstHash h f l,
      e2 ∈ l ∨ ∃ e1 ∈ l, hashOAT e1.name = h ∧ e2 = { e1 with cv := f e1.cv } := by
  intro l
  induction l with
  | nil => intro e2 he2; simp [updateFirstHash] at he2
  | cons e rest ih =>
    intro e2 he2
    rw [updateFirstHash] at he2
    split at he2
    · rename_i hh
      rcases List.mem_cons.mp he2 with rfl | h2
      · exact Or.inr ⟨e, List.mem_cons_self e rest, by simpa using hh, rfl⟩
      · exact Or.inl (List.mem_cons.mpr (Or.inr h2))
    · rcases List.mem_cons.mp he2 with rfl | h2
      · exact Or.inl (List.mem_cons_self e2 rest)
      · rcases ih e2 h2 with h3 | ⟨e1, he1, hh1, heq⟩
        · exact Or.inl (List.mem_cons.mpr (Or.inr h3))
        · exact Or.inr ⟨e1, List.mem_cons.mpr (Or.inr he1), hh1, heq⟩

/-- C10: the by-name setters apply the caller-supplied flags only on
auto-registration of a missing variable.  When the variable exists, the
flags argument is ignored entirely (the result does not depend on it), at
most the matched entry changes, and its flag bits change only by Modified
being set on a successful write. -/
theorem C10_setByName_flags :
    (∀ (m : CVarManagerModel) name v fl1 fl2, (m.findCVar name).isSome →
      m.setCVarValueInt name v fl1 = m.setCVarValueInt name v fl2) ∧
    (∀ (m : CVarManagerModel) name b fl1 fl2, (m.findCVar name).isSome →
      m.setCVarValueBool name b fl1 = m.setCVarValueBool name b fl2) ∧
    (∀ ffmt (m : CVarManagerModel) name q fl1 fl2, (m.findCVar name).isSome →
      CVarManagerModel.setCVarValueFloat ffmt m name q fl1 =
        CVarManagerModel.setCVarValueFloat ffmt m name q fl2) ∧
    (∀ (m : CVarManagerModel) name s fl1 fl2, (m.findCVar name).isSome →
      m.setCVarValueString name s fl1 = m.setCVarValueString name s fl2) ∧
    (∀ (cv : CVarState) v, ((cv.setIntValue v).2).flags =
      if (cv.setIntValue v).1 = true then { cv.flags with modified := true }
      else cv.flags) ∧
    (∀ (cv : CVarState) b, ((cv.setBoolValue b).2).flags =
      if (cv.setBoolValue b).1 = true then { cv.flags with modified := true }
      else cv.flags) ∧
    (∀ ffmt (cv : CVarState) q, ((CVarState.setFloatValue ffmt cv q).2).flags =
      if (CVarState.setFloatValue ffmt cv q).1 = true then
        { cv.flags with modified := true } else cv.flags) ∧
    (∀ (cv : CVarState) s, ((cv.setStringValue s).2).flags =
      if (cv.setStringValue s).1 = true then { cv.flags with modified := true }
      else cv.flags) ∧
    (∀ (m : CVarManagerModel) name v fl, m.findCVar name = none →
      name ≠ [] → isValidCVarName name = true →
      (m.setCVarValueInt name v fl).registry =
        ⟨name, ⟨.int v v (int64Min, int64Max), NumberFormat.decimal, fl⟩⟩ ::
          m.registry) ∧
    (∀ (m : CVarManagerModel) name b fl, m.findCVar name = none →
      name ≠ [] → isValidCVarName name = true →
      (m.setCVarValueBool name b fl).registry =
        ⟨name, ⟨.bool b b, NumberFormat.decimal, fl⟩⟩ :: m.registry) ∧
    (∀ ffmt (m : CVarManagerModel) name q fl, m.findCVar name = none →
      name ≠ [] → isValidCVarName name = true →
      (CVarManagerModel.setCVarValueFloat ffmt m name q fl).registry =
        ⟨name, ⟨.float q q (dblMin, dblMax), NumberFormat.decimal, fl⟩⟩ ::
          m.registry) ∧
    (∀ (m : CVarManagerModel) name s fl, m.findCVar name = none →
      name ≠ [] → isValidCVarName name = true →
      (m.setCVarValueString name s fl).registry =
        ⟨name, ⟨.str s s none, NumberFormat.decimal, fl⟩⟩ :: m.registry) ∧
    (∀ h f l, ∀ e2 ∈ updateFirstHash h f l,
      e2 ∈ l ∨ ∃ e1 ∈ l, hashOAT e1.name = h ∧
        e2 = { e1 with cv := f e1.cv }) := by
  have hflagsInt : ∀ (cv : CVarState) v, ((cv.setIntValue v).2).flags =
      if (cv.setIntValue v).1 = true then { cv.flags with modified := true }
      else cv.flags := by
    intro cv v
    cases hw : cv.isWritable with
    | false => rw [setIntValue_notWritable cv v hw]; simp
    | true =>
      rw [setIntValue_eq cv v hw]
      dsimp only
      by_cases hok : (cvarSetInt64 cv.data v cv.flags.rangeCheck cv.numberFormat).1 = true
      · rw [if_pos hok, if_pos hok]; rfl
      · rw [if_neg hok, if_neg hok]
  have hflagsBool : ∀ (cv : CVarState) b, ((cv.setBoolValue b).2).flags =
      if (cv.setBoolValue b).1 = true then { cv.flags with modified := true }
      else cv.flags := by
    intro cv b
    cases hw : cv.isWritable with
    | false => rw [setBoolValue_notWritable cv b hw]; simp
    | true =>
      rw [setBoolValue_eq cv b hw]
      dsimp only
      by_cases hok : (cvarSetInt64 cv.data (if b then 1 else 0)
          cv.flags.rangeCheck cv.numberFormat).1 = true
      · rw [if_pos hok, if_pos hok]; rfl
      · rw [if_neg hok, if_neg hok]
  have hflagsFloat : ∀ ffmt (cv : CVarState) q,
      ((CVarState.setFloatValue ffmt cv q).2).flags =
      if (CVarState.setFloatValue ffmt cv q).1 = true then
        { cv.flags with modified := true } else cv.flags := by
    intro ffmt cv q
    cases hw : cv.isWritable with
    | false => rw [setFloatValue_notWritable ffmt cv q hw]; simp
    | true =>
      rw [setFloatValue_eq ffmt cv q hw]
      dsimp only
      by_cases hok : (cvarSetDouble ffmt cv.data q cv.flags.rangeCheck).1 = true
      · rw [if_pos hok, if_pos hok]; rfl
      · rw [if_neg hok, if_neg hok]
  have hflagsStr : ∀ (cv : CVarState) s, ((cv.setStringValue s).2).flags =
      if (cv.setStringValue s).1 = true then { cv.flags with modified := true }
      else cv.flags := by
    intro cv s
    cases hw : cv.isWritable with
    | false => rw [setStringValue_notWritable cv s hw]; simp
    | true =>
      rw [setStringValue_eq cv s hw]
      dsimp only
      by_cases hok : (cvarSetString cv.data s cv.flags.rangeCheck).1 = true
      · rw [if_pos hok, if_pos hok]; rfl
      · rw [if_neg hok, if_neg hok]
  refine ⟨?_, ?_, ?_, ?_, hflagsInt, hflagsBool, hflagsFloat, hflagsStr,
    ?_, ?_, ?_, ?_, updateFirstHash_mem⟩
  · intro m name v fl1 fl2 hf
    rw [CVarManagerModel.setCVarValueInt.eq_def,
      CVarManagerModel.setCVarValueInt.eq_def]
    rcases h : m.findCVar name with _ | e
    · rw [h] at hf; simp at hf
    · rfl
  · intro m name b fl1 fl2 hf
    rw [CVarManagerModel.setCVarValueBool.eq_def,
      CVarManagerModel.setCVarValueBool.eq_def]
    rcases h : m.findCVar name with _ | e
    · rw [h] at hf; simp at hf
    · rfl
  · intro ffmt m name q fl1 fl2 hf
    rw [CVarManagerModel.setCVarValueFloat.eq_def,
      CVarManagerModel.setCVarValueFloat.eq_def]
    rcases h : m.findCVar name with _ | e
    · rw [h] at hf; simp at hf
    · rfl
  · intro m name s fl1 fl2 hf
    rw [CVarManagerModel.setCVarValueString.eq_def,
      CVarManagerModel.setCVarValueString.eq_def]
    rcases h : m.findCVar name with _ | e
    · rw [h] at hf; simp at hf
    · rfl
  · intro m name v fl hnone hne hvalid
    rw [CVarManagerModel.setCVarValueInt.eq_def, hnone]
    dsimp only
    rw [CVarManagerModel.registerCVar, if_neg hne, if_neg (by simp [hvalid]),
      if_neg (by simp [hnone])]
  · intro m name b fl hnone hne hvalid
    rw [CVarManagerModel.setCVarValueBool.eq_def, hnone]
    dsimp only
    rw [CVarManagerModel.registerCVar, if_neg hne, if_neg (by simp [hvalid]),
      if_neg (by simp [hnone])]
  · intro ffmt m name q fl hnone hne hvalid
    rw [CVarManagerModel.setCVarValueFloat.eq_def, hnone]
    dsimp only
    rw [CVarManagerModel.registerCVar, if_neg hne, if_neg (by simp [hvalid]),
      if_neg (by simp [hnone])]
  · intro m name s fl hnone hne hvalid
    rw [CVarManagerModel.setCVarValueString.eq_def, hnone]
    dsimp only
    rw [CVarManagerModel.registerCVar, if_neg hne, if_neg (by simp [hvalid]),
      if_neg (by simp [hnone])]

/-- Witness for C10: on a registry holding `fps`, writing `fps` by name
gives the same result whatever flags are passed; writing a fresh name
`gamma` auto-registers it with exactly the caller's flags. -/
theorem C10_witness :
    (let m0 : CVarManagerModel :=
      ⟨[⟨"fps".toList, ⟨.int 60 60 (1, 240), NumberFormat.decimal,
        ⟨false, false, false, false, false, true, false⟩⟩⟩]⟩
    m0.setCVarValueInt "fps".toList 120
        ⟨false, true, false, true, false, false, true⟩ =
      m0.setCVarValueInt "fps".toList 120
        ⟨false, false, false, false, false, false, false⟩ ∧
    (m0.setCVarValueInt "gamma".toList 7
        ⟨false, true, false, false, false, false, true⟩).registry =
      ⟨"gamma".toList, ⟨.int 7 7 (int64Min, int64Max), NumberFormat.decimal,
        ⟨false, true, false, false, false, false, true⟩⟩⟩ :: m0.registry) := by
  constructor
  · exact C10_setByName_flags.1 _ "fps".toList 120 _ _ (by decide)
  · exact C10_setByName_flags.2.2.2.2.2.2.2.2.1 _ "gamma".toList 7 _
      (by decide) (by decide) (by decide)

/-! ### C1 / C9: the command pipeline (cfg.cpp lines 2934-3094, 4177-4235,
4372-4444, 4507-4636, 4639-4722)

Strings are `List Char`; a C pointer into the buffer is modelled by the
suffix it points at, so "pointer at the terminating NUL" is the empty list.
`charsCopied` is the length of the accumulated output list.  The fixed
buffer sizes `MaxCommandArgStrLength = 2048`, `CommandBufferSize = 65535`,
`MaxCommandArguments = 64`, `MaxReentrantCommands = 999999` and
`ExecAll = ~0u = 4294967295` are the constants from cfg.hpp; both callers
of `extractNextCommand` pass a `MaxCommandArgStrLength`-sized destination
buffer, so the model fixes `destSizeInChars = 2048`.

The CVar manager consulted by `expandCVar` is abstracted as
`env : Option (List Char → Option (List Char))`: `none` is a null
`cvarManager` pointer, and `some lookup` combines `findCVar` with
`getStringValue` (`lookup name` is the expanded value, or `none` when the
CVar is not registered). -/

/-- The `'"'` character (ASCII 34). -/
def doubleQuoteChar : Char := Char.ofNat 34

/-- The `'\''` character (ASCII 39). -/
def singleQuoteChar : Char := Char.ofNat 39

/-- Tail of `CommandManagerImpl::expandCVar` (cfg.cpp lines 4694-4721),
applied after the name-scanning loop: an empty name, an invalid name, or an
unregistered CVar fails; otherwise the value is appended to the output
accumulated so far (`dest`), truncated by `copyString` to the remaining
room, which copies at most `destSize - dest.length - 1` characters.  The
second component of the pair is the input remaining after the closing
parenthesis. -/
def expandFinish (lookup : List Char → Option (List Char)) (dest : List Char)
    (destSize : Nat) : Option (List Char × List Char) → Option (List Char × List Char)
  | none => none
  | some p =>
    if p.1 = [] then none
    else if isValidCVarName p.1 = false then none
    else
      match lookup p.1 with
      | none => none
      | some v => some (dest ++ v.take (destSize - dest.length - 1), p.2)

/-- Name-scanning loop of `CommandManagerImpl::expandCVar` (cfg.cpp lines
4659-4692), entered on the character after the `'$'`.  Every call site
guarantees that character is `'('`, so `paren` is at least 1 from the first
step on; consequently reaching the terminator (`'\0'`, `'\n'` or `';'`)
always has unbalanced parentheses and fails, exactly as the
`parenthesis != 0` check after the C loop does.  A `')'` breaks the loop
and succeeds only when it closes the single outstanding level.  A nested
`"$("` recurses (refused at recursion depth 15) and appends the inner
CVar's value to the outer name via `expandFinish` with the name buffer's
own size 2048, then the scan resumes after the inner closing parenthesis.
Whitespace never enters the name; a 2049th name character overflows.  The
fuel only bounds the recursion; callers pass more fuel than there are
input characters, so the `0` case is never reached from `extractNextCommand`. -/
def expandLoop (lookup : List Char → Option (List Char)) :
    Nat → Nat → List Char → Nat → List Char → Option (List Char × List Char)
  | 0, _, _, _, _ => none
  | fuel + 1, depth, s, paren, nameAcc =>
    match s with
    | [] => none
    | c :: rest =>
      if c = '\n' ∨ c = ';' then none
      else if c = '(' then expandLoop lookup fuel depth rest (paren + 1) nameAcc
      else if c = ')' then (if paren = 1 then some (nameAcc, rest) else none)
      else if c = '$' ∧ rest.head? = some '(' then
        if depth = 15 then none
        else
          match expandFinish lookup nameAcc 2048 (expandLoop lookup fuel (depth + 1) rest 0 []) with
          | none => none
          | some p => expandLoop lookup fuel depth p.2 paren p.1
      else if isWhitespace c then expandLoop lookup fuel depth rest paren nameAcc
      else if nameAcc.length = 2048 then none
      else expandLoop lookup fuel depth rest paren (nameAcc ++ [c])

/-- Main copying loop of `CommandManagerImpl::extractNextCommand` (cfg.cpp
lines 4541-4632).  State: output accumulated so far (`acc`), quote counter
`qc` (`quoted` is its parity), `sq` (`singleQuote`) and `bs` (`backslash`).
The loop-condition check `charsCopied < destSizeInChars` together with the
post-loop truncation (lines 4625-4630) appears as the entry test
`acc.length = 2048`, which drops the last copied character and reports an
overflow.  Carriage returns are skipped; a backslash is remembered and not
copied; a newline terminates unless preceded by a backslash or inside
quotes (when it is copied into the output); quotes toggle the counters and
are copied; an unquoted `';'` terminates; `"$("` performs CVar
substitution - with a null manager or a failed expansion the rest of the
broken command is skipped up to its terminator (plus the `++str` of the
`continue`) and the overflow flag is set; any other character is copied,
clearing a pending backslash unless the character is a space or a tab.
Terminator exits return the input after the terminator, matching the final
`++str` of the C loop.  Result: (copied text, remaining input, overflow). -/
def extractLoop (env : Option (List Char → Option (List Char))) :
    Nat → List Char → List Char → Nat → Bool → Bool → List Char × List Char × Bool
  | 0, s, acc, _, _, _ => (acc, s, false)
  | fuel + 1, s, acc, qc, sq, bs =>
    if acc.length = 2048 then (acc.dropLast, s, true)
    else
      match s with
      | [] => (acc, [], false)
      | c :: rest =>
        if c = '\r' then extractLoop env fuel rest acc qc sq bs
        else if c = '\\' then extractLoop env fuel rest acc qc sq true
        else if c = '\n' then
          if bs = false ∧ qc % 2 = 0 then (acc, rest, false)
          else extractLoop env fuel rest (acc ++ ['\n']) qc sq false
        else if c = doubleQuoteChar then
          extractLoop env fuel rest (acc ++ [c]) (qc + 1) sq false
        else if c = singleQuoteChar then
          if qc % 2 = 0 then extractLoop env fuel rest (acc ++ [c]) (qc + 1) true false
          else if sq then extractLoop env fuel rest (acc ++ [c]) (qc + 1) false false
          else extractLoop env fuel rest (acc ++ [c]) qc sq false
        else if c = ';' then
          if qc % 2 = 0 then (acc, rest, false)
          else extractLoop env fuel rest (acc ++ [c]) qc sq false
        else if c = '$' ∧ rest.head? = some '(' then
          match env with
          | none =>
            (acc, (List.dropWhile (fun x => !(x = '\n' ∨ x = ';')) (c :: rest)).tail, true)
          | some lookup =>
            match expandFinish lookup acc 2048 (expandLoop lookup fuel 1 rest 0 []) with
            | some p => extractLoop env fuel p.2 p.1 qc sq bs
            | none =>
              (acc, (List.dropWhile (fun x => !(x = '\n' ∨ x = ';')) (c :: rest)).tail, true)
        else extractLoop env fuel rest (acc ++ [c]) qc sq (bs && (c = ' ' || c = '\t'))

/-- Predicate of the sanitizing pre-pass of `extractNextCommand` (cfg.cpp
lines 4514-4521): leading whitespace and command separators. -/
def cmdSepOrWs (c : Char) : Bool := isWhitespace c || (c = ';')

/-- `CommandManagerImpl::extractNextCommand` (cfg.cpp lines 4507-4636):
drop leading whitespace and separators, then run the copying loop on the
rest with one unit of fuel per remaining character plus one - the loop
consumes at least one input character per step, so the fuel never runs
out.  The C function returns `charsCopied > 0`, i.e. the first component
being non-empty. -/
def extractNextCommand (env : Option (List Char → Option (List Char)))
    (s : List Char) : List Char × List Char × Bool :=
  extractLoop env ((s.dropWhile cmdSepOrWs).length + 1) (s.dropWhile cmdSepOrWs) [] 0 false false

/-- `CommandArgs::appendToken` (cfg.cpp lines 3072-3094) on the raw token
span and the arena cursor `nextTokenIndex`: when the raw length no longer
fits the 2048-char arena the token is dropped (`nullptr`, cursor
unchanged); otherwise an enclosing quote pair is stripped (the code
assumes the closing quote is present and unconditionally shortens by two)
and the cursor advances past the stored token and its terminator. -/
def appendToken (token : List Char) (nextTokenIndex : Nat) :
    Option (List Char) × Nat :=
  if 2048 ≤ nextTokenIndex + token.length then (none, nextTokenIndex)
  else
    match token with
    | c :: rest =>
      if c = doubleQuoteChar ∨ c = singleQuoteChar then
        (some rest.dropLast, nextTokenIndex + rest.dropLast.length + 1)
      else (some token, nextTokenIndex + token.length + 1)
    | [] => (some [], nextTokenIndex + 1)

/-- Argument-splitting loop of `CommandArgs::parseArgString` (cfg.cpp lines
2950-3052).  A token is the raw span from `argStart` up to the character
that finishes it; the model accumulates that span in `cur` (`cur = []` is a
null `argStart`; every open span is non-empty since a span starts with the
character that opened it).  Quotes toggle the counters exactly as in the
extraction loop and stay in the span; whitespace (space, tab, newline,
carriage return) outside quotes finishes the span via `appendToken` - the
first token becomes the command name (even when `appendToken` failed and
returned null), later ones go through `addArgString` (cfg.cpp lines
3055-3070), which stops the parse on a null token or on the 65th argument;
whitespace inside quotes stays in the span; any other character joins the
span.  A residual span at the end of the string is finished the same way
(a failing residual `addArgString` is a no-op, cfg.cpp line 3050). -/
def parseArgsLoop :
    List Char → Nat → Bool → List Char → Bool →
    Option (List Char) → List (List Char) → Nat →
    Option (List Char) × List (List Char)
  | [], _, _, cur, firstArg, cmdName, args, nti =>
    if cur = [] then (cmdName, args)
    else
      if firstArg then ((appendToken cur nti).1, args)
      else
        match (appendToken cur nti).1 with
        | some tok => if args.length = 64 then (cmdName, args) else (cmdName, args ++ [tok])
        | none => (cmdName, args)
  | c :: rest, qc, sq, cur, firstArg, cmdName, args, nti =>
    if c = doubleQuoteChar then
      parseArgsLoop rest (qc + 1) sq (cur ++ [c]) firstArg cmdName args nti
    else if c = singleQuoteChar then
      if qc % 2 = 0 then parseArgsLoop rest (qc + 1) true (cur ++ [c]) firstArg cmdName args nti
      else if sq then parseArgsLoop rest (qc + 1) false (cur ++ [c]) firstArg cmdName args nti
      else parseArgsLoop rest qc sq (cur ++ [c]) firstArg cmdName args nti
    else if c = ' ' ∨ c = '\t' ∨ c = '\n' ∨ c = '\r' then
      if qc % 2 = 0 ∧ cur ≠ [] then
        if firstArg then
          parseArgsLoop rest qc sq [] false (appendToken cur nti).1 args (appendToken cur nti).2
        else
          match (appendToken cur nti).1 with
          | some tok =>
            if args.length = 64 then (cmdName, args)
            else parseArgsLoop rest qc sq [] false cmdName (args ++ [tok]) (appendToken cur nti).2
          | none => (cmdName, args)
      else if qc % 2 = 1 then parseArgsLoop rest qc sq (cur ++ [c]) firstArg cmdName args nti
      else parseArgsLoop rest qc sq cur firstArg cmdName args nti
    else parseArgsLoop rest qc sq (cur ++ [c]) firstArg cmdName args nti

/-- `CommandArgs::parseArgString` (cfg.cpp lines 2934-3053): the first
token is the command name, the remaining tokens are the arguments. -/
def parseArgString (s : List Char) : Option (List Char) × List (List Char) :=
  parseArgsLoop s 0 false [] true none [] 0

/-- `CommandManagerImpl::execAppend` (cfg.cpp lines 4211-4235): an empty
string is ignored; if the text plus its separator no longer fits the
65535-char buffer the call is a no-op; otherwise the text and a `';'` are
appended. -/
def execAppend (buf s : List Char) : List Char :=
  if s = [] then buf
  else if 65535 ≤ buf.length + (s.length + 1) then buf
  else buf ++ s ++ [';']

/-- `CommandManagerImpl::execInsert` (cfg.cpp lines 4177-4209): like
`execAppend` but the text and its `';'` separator are prepended. -/
def execInsert (buf s : List Char) : List Char :=
  if s = [] then buf
  else if 65535 ≤ buf.length + (s.length + 1) then buf
  else s ++ [';'] ++ buf

/-- Result of `execBufferedCommands`: the return value `executed`, the
final command-buffer content, the list of command strings handed to
`execTokenized` in order, and whether the overflow-discard (cfg.cpp lines
4387-4395) or the reentrancy guard (lines 4420-4426) fired. -/
structure ExecResult where
  executed : Nat
  buffer : List Char
  dispatched : List (List Char)
  overflowHit : Bool
  reentrantHit : Bool
  deriving DecidableEq

/-- Loop of `CommandManagerImpl::execBufferedCommands` (cfg.cpp lines
4379-4443), with the dispatch `execTokenized(CommandArgs(tempBuffer))`
abstracted as `handler cmd buf`: the command's handler may edit the
command buffer through `execAppend`/`execInsert`, so it is modelled as a
function from the dispatched command string and the current buffer to the
new buffer.  The buffer shift of lines 4405-4410 is the handler receiving
`(extractNextCommand env buf).2.1`, the remainder after the extracted
command.  `n` is `commandsExecuted`.  A failing extraction ends the loop
and the trailing-garbage cleanup of lines 4437-4441 clears the buffer
exactly when the failed extraction consumed the whole remainder; an
overflowed extraction discards the buffer; 999999 commands in one call
trips the reentrancy guard; a non-`ExecAll` (`4294967295`) budget stops
after `maxCount` commands, where the cleanup test reads the shifted
buffer.  One unit of fuel is spent per dispatched command, so fuel
`999999 = MaxReentrantCommands` is never exhausted: the guard fires
first. -/
def execBufLoop (env : Option (List Char → Option (List Char)))
    (handler : List Char → List Char → List Char) (maxCount : Nat) :
    Nat → List Char → Nat → ExecResult
  | 0, buf, n => ⟨n, buf, [], false, false⟩
  | fuel + 1, buf, n =>
    if (extractNextCommand env buf).1 = [] then
      ⟨n, if (extractNextCommand env buf).2.1 = [] then [] else buf, [], false, false⟩
    else if (extractNextCommand env buf).2.2 then ⟨n, [], [], true, false⟩
    else if n + 1 = 999999 then ⟨n + 1, [], [(extractNextCommand env buf).1], false, true⟩
    else if maxCount ≠ 4294967295 ∧ n + 1 = maxCount then
      ⟨n + 1,
        if handler (extractNextCommand env buf).1 (extractNextCommand env buf).2.1 = [] then []
        else handler (extractNextCommand env buf).1 (extractNextCommand env buf).2.1,
        [(extractNextCommand env buf).1], false, false⟩
    else
      ⟨(execBufLoop env handler maxCount fuel
          (handler (extractNextCommand env buf).1 (extractNextCommand env buf).2.1) (n + 1)).executed,
        (execBufLoop env handler maxCount fuel
          (handler (extractNextCommand env buf).1 (extractNextCommand env buf).2.1) (n + 1)).buffer,
        (extractNextCommand env buf).1 ::
          (execBufLoop env handler maxCount fuel
            (handler (extractNextCommand env buf).1 (extractNextCommand env buf).2.1) (n + 1)).dispatched,
        (execBufLoop env handler maxCount fuel
          (handler (extractNextCommand env buf).1 (extractNextCommand env buf).2.1) (n + 1)).overflowHit,
        (execBufLoop env handler maxCount fuel
          (handler (extractNextCommand env buf).1 (extractNextCommand env buf).2.1) (n + 1)).reentrantHit⟩

/-- `CommandManagerImpl::execBufferedCommands` (cfg.cpp lines 4372-4444):
an empty buffer or a zero budget returns immediately with nothing done. -/
def execBufferedCommands (env : Option (List Char → Option (List Char)))
    (handler : List Char → List Char → List Char) (maxCount : Nat)
    (buf : List Char) : ExecResult :=
  if buf = [] ∨ maxCount = 0 then ⟨0, buf, [], false, false⟩
  else execBufLoop env handler maxCount 999999 buf 0

/-- A command handler that never touches the command buffer (it calls
neither `execAppend` nor `execInsert`). -/
def neutralHandler : List Char → List Char → List Char := fun _ buf => buf

/-- The first `k` command strings extracted from `buf` in sequence. -/
def cmdSeq (env : Option (List Char → Option (List Char))) :
    Nat → List Char → List (List Char)
  | 0, _ => []
  | k + 1, buf =>
    (extractNextCommand env buf).1 :: cmdSeq env k (extractNextCommand env buf).2.1

/-- The buffer remainder after extracting `k` commands from `buf`: the
pre-call content minus the first `k` command records (each extraction also
compacts the separators and whitespace in front of its command). -/
def dropCmds (env : Option (List Char → Option (List Char))) :
    Nat → List Char → List Char
  | 0, buf => buf
  | k + 1, buf => dropCmds env k (extractNextCommand env buf).2.1

/-- Unfolding of one step of `extractLoop` on a non-empty input when the
output buffer is not yet full. -/
theorem extractLoop_cons (env : Option (List Char → Option (List Char)))
    (fuel : Nat) (c : Char) (rest acc : List Char) (qc : Nat) (sq bs : Bool)
    (h : acc.length ≠ 2048) :
    extractLoop env (fuel + 1) (c :: rest) acc qc sq bs =
      (if c = '\r' then extractLoop env fuel rest acc qc sq bs
       else if c = '\\' then extractLoop env fuel rest acc qc sq true
       else if c = '\n' then
         if bs = false ∧ qc % 2 = 0 then (acc, rest, false)
         else extractLoop env fuel rest (acc ++ ['\n']) qc sq false
       else if c = doubleQuoteChar then
         extractLoop env fuel rest (acc ++ [c]) (qc + 1) sq false
       else if c = singleQuoteChar then
         if qc % 2 = 0 then extractLoop env fuel rest (acc ++ [c]) (qc + 1) true false
         else if sq then extractLoop env fuel rest (acc ++ [c]) (qc + 1) false false
         else extractLoop env fuel rest (acc ++ [c]) qc sq false
       else if c = ';' then
         if qc % 2 = 0 then (acc, rest, false)
         else extractLoop env fuel rest (acc ++ [c]) qc sq false
       else if c = '$' ∧ rest.head? = some '(' then
         match env with
         | none =>
           (acc, (List.dropWhile (fun x => !(x = '\n' ∨ x = ';')) (c :: rest)).tail, true)
         | some lookup =>
           match expandFinish lookup acc 2048 (expandLoop lookup fuel 1 rest 0 []) with
           | some p => extractLoop env fuel p.2 p.1 qc sq bs
           | none =>
             (acc, (List.dropWhile (fun x => !(x = '\n' ∨ x = ';')) (c :: rest)).tail, true)
       else extractLoop env fuel rest (acc ++ [c]) qc sq (bs && (c = ' ' || c = '\t'))) := by
  rw [extractLoop.eq_def]
  dsimp only
  rw [if_neg h]

/-- A successful `expandFinish` produces an output free of carriage
returns, provided the accumulated output and every value the lookup can
return are free of them. -/
theorem expandFinish_crFree (lookup : List Char → Option (List Char))
    (dest : List Char) (n : Nat) (o : Option (List Char × List Char))
    (p : List Char × List Char) (hd : '\r' ∉ dest)
    (hl : ∀ nm v, lookup nm = some v → '\r' ∉ v)
    (h : expandFinish lookup dest n o = some p) : '\r' ∉ p.1 := by
  cases o with
  | none => exact Option.noConfusion h
  | some q =>
    rw [expandFinish] at h
    by_cases h1 : q.1 = []
    · rw [if_pos h1] at h; exact Option.noConfusion h
    · rw [if_neg h1] at h
      by_cases h2 : isValidCVarName q.1 = false
      · rw [if_pos h2] at h; exact Option.noConfusion h
      · rw [if_neg h2] at h
        cases hv : lookup q.1 with
        | none => rw [hv] at h; exact Option.noConfusion h
        | some v =>
          rw [hv] at h
          rcases Option.some.inj h with rfl
          intro hm
          rcases List.mem_append.mp hm with hm | hm
          · exact hd hm
          · exact hl q.1 v hv (List.take_subset _ _ hm)

/-- No step of the extraction loop ever copies a carriage return into the
command string, as long as CVar expansion values are CR-free. -/
theorem extractLoop_crFree (env : Option (List Char → Option (List Char)))
    (henv : ∀ f, env = some f → ∀ nm v, f nm = some v → '\r' ∉ v) :
    ∀ fuel s acc qc sq bs, '\r' ∉ acc →
      '\r' ∉ (extractLoop env fuel s acc qc sq bs).1 := by
  intro fuel
  induction fuel with
  | zero => intro s acc qc sq bs ha; exact ha
  | succ fuel ih =>
    intro s acc qc sq bs ha
    by_cases hlen : acc.length = 2048
    · rw [extractLoop.eq_def]
      dsimp only
      rw [if_pos hlen]
      exact fun hm => ha ((List.dropLast_sublist acc).subset hm)
    · cases s with
      | nil =>
        rw [extractLoop.eq_def]
        dsimp only
        rw [if_neg hlen]
        exact ha
      | cons c rest =>
        have happ : ∀ d : Char, d ≠ '\r' → '\r' ∉ acc ++ [d] := by
          intro d hd hm
          rcases List.mem_append.mp hm with hm | hm
          · exact ha hm
          · rw [List.mem_singleton] at hm; exact hd hm.symm
        rw [extractLoop_cons env fuel c rest acc qc sq bs hlen]
        by_cases h1 : c = '\r'
        · rw [if_pos h1]; exact ih rest acc qc sq bs ha
        rw [if_neg h1]
        by_cases h2 : c = '\\'
        · rw [if_pos h2]; exact ih rest acc qc sq true ha
        rw [if_neg h2]
        by_cases h3 : c = '\n'
        · rw [if_pos h3]
          by_cases h3a : bs = false ∧ qc % 2 = 0
          · rw [if_pos h3a]; exact ha
          · rw [if_neg h3a]
            exact ih rest (acc ++ ['\n']) qc sq false (happ '\n' (by decide))
        rw [if_neg h3]
        by_cases h4 : c = doubleQuoteChar
        · rw [if_pos h4]
          exact ih rest (acc ++ [c]) (qc + 1) sq false (happ c (by rw [h4]; decide))
        rw [if_neg h4]
        by_cases h5 : c = singleQuoteChar
        · rw [if_pos h5]
          by_cases h5a : qc % 2 = 0
          · rw [if_pos h5a]
            exact ih rest (acc ++ [c]) (qc + 1) true false (happ c (by rw [h5]; decide))
          · rw [if_neg h5a]
            by_cases h5b : sq = true
            · rw [if_pos h5b]
              exact ih rest (acc ++ [c]) (qc + 1) false false (happ c (by rw [h5]; decide))
            · rw [if_neg h5b]
              exact ih rest (acc ++ [c]) qc sq false (happ c (by rw [h5]; decide))
        rw [if_neg h5]
        by_cases h6 : c = ';'
        · rw [if_pos h6]
          by_cases h6a : qc % 2 = 0
          · rw [if_pos h6a]; exact ha
          · rw [if_neg h6a]
            exact ih rest (acc ++ [c]) qc sq false (happ c (by rw [h6]; decide))
        rw [if_neg h6]
        by_cases h7 : c = '$' ∧ rest.head? = some '('
        · rw [if_pos h7]
          cases env with
          | none => exact ha
          | some lookup =>
            dsimp only
            cases hEF : expandFinish lookup acc 2048 (expandLoop lookup fuel 1 rest 0 []) with
            | none => exact ha
            | some p =>
              exact ih p.2 p.1 qc sq bs
                (expandFinish_crFree lookup acc 2048 _ p ha (henv lookup rfl) hEF)
        rw [if_neg h7]
        exact ih rest (acc ++ [c]) qc sq (bs && (c = ' ' || c = '\t')) (happ c h1)

/-- Dropping a prefix that satisfies the predicate does not change
`dropWhile`. -/
theorem dropWhile_append_all (p : Char → Bool) (pre s : List Char)
    (h : ∀ c ∈ pre, p c = true) :
    List.dropWhile p (pre ++ s) = List.dropWhile p s := by
  induction pre with
  | nil => rfl
  | cons c t ih =>
    rw [List.cons_append, List.dropWhile_cons, if_pos (h c (by simp))]
    exact ih fun d hd => h d (by simp [hd])

/-- Leading whitespace and command separators are pre-consumed: prefixing
them leaves the extraction result unchanged. -/
theorem extractNextCommand_preconsume (env : Option (List Char → Option (List Char)))
    (pre s : List Char) (h : ∀ c ∈ pre, isWhitespace c = true ∨ c = ';') :
    extractNextCommand env (pre ++ s) = extractNextCommand env s := by
  have hp : ∀ c ∈ pre, cmdSepOrWs c = true := by
    intro c hc
    rcases h c hc with h1 | h1
    · simp [cmdSepOrWs, h1]
    · subst h1; decide
  simp only [extractNextCommand]
  rw [dropWhile_append_all cmdSepOrWs pre s hp]

/-- A backslash directly before a newline never terminates the command:
the backslash is dropped, the newline is copied into the command string
(where the tokenizer later treats it as argument whitespace), and the scan
continues on the next physical line. -/
theorem extractLoop_backslash_newline (env : Option (List Char → Option (List Char)))
    (fuel : Nat) (s acc : List Char) (qc : Nat) (sq bs : Bool)
    (h : acc.length + 1 < 2048) :
    extractLoop env (fuel + 2) ('\\' :: '\n' :: s) acc qc sq bs =
      extractLoop env fuel s (acc ++ ['\n']) qc sq false := by
  have h1 : acc.length ≠ 2048 := by omega
  rw [extractLoop_cons env (fuel + 1) '\\' ('\n' :: s) acc qc sq bs h1]
  rw [if_neg (by decide : ¬('\\' = '\r')), if_pos (rfl : '\\' = '\\')]
  rw [extractLoop_cons env fuel '\n' s acc qc sq true h1]
  rw [if_neg (by decide : ¬('\n' = '\r')), if_neg (by decide : ¬('\n' = '\\')),
    if_pos (rfl : '\n' = '\n')]
  rw [if_neg (by simp : ¬((true : Bool) = false ∧ qc % 2 = 0))]

/-- The input of specification scenario 8.2: `a 1 ; b 2 \` newline
`continued ; c 3`. -/
def contScenario : List Char :=
  ['a', ' ', '1', ' ', ';', ' ', 'b', ' ', '2', ' ', '\\', '\n',
   'c', 'o', 'n', 't', 'i', 'n', 'u', 'e', 'd', ' ', ';', ' ', 'c', ' ', '3']

/-- First extraction from the scenario input (no CVar manager present). -/
def contExtract1 : List Char × List Char × Bool := extractNextCommand none contScenario

/-- Second extraction, from the remainder of the first. -/
def contExtract2 : List Char × List Char × Bool := extractNextCommand none contExtract1.2.1

/-- Third extraction, from the remainder of the second. -/
def contExtract3 : List Char × List Char × Bool := extractNextCommand none contExtract2.2.1

/-- Fourth extraction, from the remainder of the third. -/
def contExtract4 : List Char × List Char × Bool := extractNextCommand none contExtract3.2.1

/-- C9: `extractNextCommand` pre-consumes leading whitespace and command
separators (prefixing them never changes the result); carriage returns are
silently discarded - none ever reaches the extracted command string, given
that CVar expansion values are also CR-free; a backslash before a newline
never terminates the command, the scan merging the next physical line into
the same command (the copied newline is argument whitespace for the
tokenizer); commands end at an unquoted `';'` or unescaped newline as the
extraction loop implements, and on the scenario input
`"a 1 ; b 2 \<newline>continued ; c 3"` three successive extractions
succeed without overflow and tokenize to exactly the commands
`a ["1"]`, `b ["2", "continued"]` and `c ["3"]`, a fourth extraction
finding nothing. -/
theorem C9_extractNextCommand :
    (∀ env pre s, (∀ c ∈ pre, isWhitespace c = true ∨ c = ';') →
      extractNextCommand env (pre ++ s) = extractNextCommand env s) ∧
    (∀ env s, (∀ f, env = some f → ∀ nm v, f nm = some v → '\r' ∉ v) →
      '\r' ∉ (extractNextCommand env s).1) ∧
    (∀ env fuel s acc qc sq bs, acc.length + 1 < 2048 →
      extractLoop env (fuel + 2) ('\\' :: '\n' :: s) acc qc sq bs =
        extractLoop env fuel s (acc ++ ['\n']) qc sq false) ∧
    (parseArgString contExtract1.1 = (some ['a'], [['1']]) ∧
      contExtract1.2.2 = false ∧
      parseArgString contExtract2.1 =
        (some ['b'], [['2'], ['c', 'o', 'n', 't', 'i', 'n', 'u', 'e', 'd']]) ∧
      contExtract2.2.2 = false ∧
      parseArgString contExtract3.1 = (some ['c'], [['3']]) ∧
      contExtract3.2.2 = false ∧
      contExtract4.1 = []) := by
  refine ⟨extractNextCommand_preconsume, ?_, extractLoop_backslash_newline, by decide⟩
  intro env s henv
  exact extractLoop_crFree env henv _ _ _ _ _ _ (List.not_mem_nil _)

/-- Witness for C9: the generic parts applied at concrete inputs. -/
theorem C9_witness :
    extractNextCommand none ([' ', ';'] ++ ['x']) = extractNextCommand none ['x'] ∧
    '\r' ∉ (extractNextCommand none ['x', '\r', 'y']).1 ∧
    extractLoop none (0 + 2) ('\\' :: '\n' :: ['z']) ['x'] 0 false false =
      extractLoop none 0 ['z'] (['x'] ++ ['\n']) 0 false false := by
  refine ⟨C9_extractNextCommand.1 none [' ', ';'] ['x'] (by decide),
    C9_extractNextCommand.2.1 none ['x', '\r', 'y'] ?_,
    C9_extractNextCommand.2.2.1 none 0 ['z'] ['x'] 0 false false (by decide)⟩
  intro f hf
  exact Option.noConfusion hf

/-- One step of `cmdSeq`. -/
theorem cmdSeq_succ (env : Option (List Char → Option (List Char))) (k : Nat)
    (buf : List Char) :
    cmdSeq env (k + 1) buf =
      (extractNextCommand env buf).1 :: cmdSeq env k (extractNextCommand env buf).2.1 := rfl

/-- One step of `dropCmds`. -/
theorem dropCmds_succ (env : Option (List Char → Option (List Char))) (k : Nat)
    (buf : List Char) :
    dropCmds env (k + 1) buf = dropCmds env k (extractNextCommand env buf).2.1 := rfl

/-- `execBufLoop` when the extraction fails: the loop ends, clearing the
buffer exactly when the failed extraction consumed the whole remainder. -/
theorem execBufLoop_extractFail (env : Option (List Char → Option (List Char)))
    (hd : List Char → List Char → List Char) (mc fuel : Nat) (buf : List Char) (n : Nat)
    (h : (extractNextCommand env buf).1 = []) :
    execBufLoop env hd mc (fuel + 1) buf n =
      ⟨n, if (extractNextCommand env buf).2.1 = [] then [] else buf, [], false, false⟩ := by
  rw [execBufLoop.eq_def]
  dsimp only
  rw [if_pos h]

/-- `execBufLoop` when the extraction overflowed: the buffer is discarded. -/
theorem execBufLoop_overflow (env : Option (List Char → Option (List Char)))
    (hd : List Char → List Char → List Char) (mc fuel : Nat) (buf : List Char) (n : Nat)
    (h1 : (extractNextCommand env buf).1 ≠ [])
    (h2 : (extractNextCommand env buf).2.2 = true) :
    execBufLoop env hd mc (fuel + 1) buf n = ⟨n, [], [], true, false⟩ := by
  rw [execBufLoop.eq_def]
  dsimp only
  rw [if_neg h1, if_pos h2]

/-- `execBufLoop` when the reentrancy guard fires after this dispatch. -/
theorem execBufLoop_reentrant (env : Option (List Char → Option (List Char)))
    (hd : List Char → List Char → List Char) (mc fuel : Nat) (buf : List Char) (n : Nat)
    (h1 : (extractNextCommand env buf).1 ≠ [])
    (h2 : (extractNextCommand env buf).2.2 = false)
    (h3 : n + 1 = 999999) :
    execBufLoop env hd mc (fuel + 1) buf n =
      ⟨n + 1, [], [(extractNextCommand env buf).1], false, true⟩ := by
  rw [execBufLoop.eq_def]
  dsimp only
  rw [if_neg h1, if_neg (by simp [h2]), if_pos h3]

/-- `execBufLoop` when the per-call budget is reached after this dispatch. -/
theorem execBufLoop_maxStop (env : Option (List Char → Option (List Char)))
    (hd : List Char → List Char → List Char) (mc fuel : Nat) (buf : List Char) (n : Nat)
    (h1 : (extractNextCommand env buf).1 ≠ [])
    (h2 : (extractNextCommand env buf).2.2 = false)
    (h3 : ¬(n + 1 = 999999))
    (h4 : mc ≠ 4294967295 ∧ n + 1 = mc) :
    execBufLoop env hd mc (fuel + 1) buf n =
      ⟨n + 1,
        if hd (extractNextCommand env buf).1 (extractNextCommand env buf).2.1 = [] then []
        else hd (extractNextCommand env buf).1 (extractNextCommand env buf).2.1,
        [(extractNextCommand env buf).1], false, false⟩ := by
  rw [execBufLoop.eq_def]
  dsimp only
  rw [if_neg h1, if_neg (by simp [h2]), if_neg h3, if_pos h4]

/-- The dispatching step of `execBufLoop`: the buffer is shifted left past
the extracted command BEFORE the handler runs - the handler is applied to
`(extractNextCommand env buf).2.1`, the remainder after the command just
extracted, and the loop continues on whatever buffer the handler returns,
so a handler calling `execAppend`/`execInsert` sees (and edits) only the
not-yet-executed remainder plus its own additions. -/
theorem execBufLoop_step (env : Option (List Char → Option (List Char)))
    (hd : List Char → List Char → List Char) (mc fuel : Nat) (buf : List Char) (n : Nat)
    (h1 : (extractNextCommand env buf).1 ≠ [])
    (h2 : (extractNextCommand env buf).2.2 = false)
    (h3 : ¬(n + 1 = 999999))
    (h4 : ¬(mc ≠ 4294967295 ∧ n + 1 = mc)) :
    execBufLoop env hd mc (fuel + 1) buf n =
      ⟨(execBufLoop env hd mc fuel
          (hd (extractNextCommand env buf).1 (extractNextCommand env buf).2.1) (n + 1)).executed,
        (execBufLoop env hd mc fuel
          (hd (extractNextCommand env buf).1 (extractNextCommand env buf).2.1) (n + 1)).buffer,
        (extractNextCommand env buf).1 ::
          (execBufLoop env hd mc fuel
            (hd (extractNextCommand env buf).1 (extractNextCommand env buf).2.1) (n + 1)).dispatched,
        (execBufLoop env hd mc fuel
          (hd (extractNextCommand env buf).1 (extractNextCommand env buf).2.1) (n + 1)).overflowHit,
        (execBufLoop env hd mc fuel
          (hd (extractNextCommand env buf).1 (extractNextCommand env buf).2.1) (n + 1)).reentrantHit⟩ := by
  rw [execBufLoop.eq_def]
  dsimp only
  rw [if_neg h1, if_neg (by simp [h2]), if_neg h3, if_neg h4]

/-- Accounting invariant of the execution loop under a handler that never
touches the command buffer: absent the overflow and reentrancy breaks, the
return value counts exactly the dispatched commands, the dispatch log is
the sequence of successive front extractions, and the final buffer is the
starting buffer minus those records (or cleared, precisely when one more
extraction finds nothing and consumes the whole remainder). -/
theorem execBufLoop_neutral_spec (env : Option (List Char → Option (List Char)))
    (maxCount : Nat) :
    ∀ fuel buf n,
      (execBufLoop env neutralHandler maxCount fuel buf n).overflowHit = false →
      (execBufLoop env neutralHandler maxCount fuel buf n).reentrantHit = false →
      (execBufLoop env neutralHandler maxCount fuel buf n).executed
          = n + (execBufLoop env neutralHandler maxCount fuel buf n).dispatched.length ∧
      (execBufLoop env neutralHandler maxCount fuel buf n).dispatched
          = cmdSeq env (execBufLoop env neutralHandler maxCount fuel buf n).dispatched.length buf ∧
      ((execBufLoop env neutralHandler maxCount fuel buf n).buffer
          = dropCmds env (execBufLoop env neutralHandler maxCount fuel buf n).dispatched.length buf ∨
        ((execBufLoop env neutralHandler maxCount fuel buf n).buffer = [] ∧
          (extractNextCommand env (dropCmds env
            (execBufLoop env neutralHandler maxCount fuel buf n).dispatched.length buf)).1 = [] ∧
          (extractNextCommand env (dropCmds env
            (execBufLoop env neutralHandler maxCount fuel buf n).dispatched.length buf)).2.1 = [])) := by
  intro fuel
  induction fuel with
  | zero => exact fun buf n _ _ => ⟨rfl, rfl, Or.inl rfl⟩
  | succ fuel ih =>
    intro buf n hov hre
    by_cases h1 : (extractNextCommand env buf).1 = []
    · rw [execBufLoop_extractFail env neutralHandler maxCount fuel buf n h1]
      refine ⟨rfl, rfl, ?_⟩
      dsimp only
      simp only [List.length_nil, dropCmds]
      by_cases h2 : (extractNextCommand env buf).2.1 = []
      · right
        exact ⟨by rw [if_pos h2], h1, h2⟩
      · left
        rw [if_neg h2]
    · by_cases h2 : (extractNextCommand env buf).2.2 = true
      · rw [execBufLoop_overflow env neutralHandler maxCount fuel buf n h1 h2] at hov
        simp at hov
      · have h2f : (extractNextCommand env buf).2.2 = false := by
          cases hb : (extractNextCommand env buf).2.2
          · rfl
          · exact absurd hb h2
        by_cases h3 : n + 1 = 999999
        · rw [execBufLoop_reentrant env neutralHandler maxCount fuel buf n h1 h2f h3] at hre
          simp at hre
        · by_cases h4 : maxCount ≠ 4294967295 ∧ n + 1 = maxCount
          · rw [execBufLoop_maxStop env neutralHandler maxCount fuel buf n h1 h2f h3 h4]
            dsimp only [neutralHandler]
            refine ⟨by simp, ?_, ?_⟩
            · simp only [List.length_cons, List.length_nil, cmdSeq]
            · simp only [List.length_cons, List.length_nil, dropCmds]
              by_cases h5 : (extractNextCommand env buf).2.1 = []
              · left
                rw [if_pos h5]
                exact h5.symm
              · left
                rw [if_neg h5]
          · rw [execBufLoop_step env neutralHandler maxCount fuel buf n h1 h2f h3 h4] at hov hre ⊢
            dsimp only [neutralHandler] at hov hre ⊢
            obtain ⟨ih1, ih2, ih3⟩ := ih (extractNextCommand env buf).2.1 (n + 1) hov hre
            refine ⟨?_, ?_, ?_⟩
            · simp only [List.length_cons]
              omega
            · simp only [List.length_cons, cmdSeq]
              rw [← ih2]
            · simp only [List.length_cons, dropCmds]
              exact ih3

/-- The handler of specification scenario 8.3: the registered command
`bomb` calls `execAppend("ping")` from inside its own execution; every
other command leaves the buffer alone. -/
def bombHandler : List Char → List Char → List Char := fun cmd buf =>
  if (parseArgString cmd).1 = some ['b', 'o', 'm', 'b'] then
    execAppend buf ['p', 'i', 'n', 'g']
  else buf

/-- The command buffer of scenario 8.3 after `execAppend("bomb; bomb")`. -/
def bombBuffer : List Char :=
  execAppend [] ['b', 'o', 'm', 'b', ';', ' ', 'b', 'o', 'm', 'b']

/-- C1: (1) under a handler that never edits the command buffer, a call of
`execBufferedCommands` that hits neither the overflow discard nor the
reentrancy guard returns exactly the number of dispatched commands, the
dispatch log is the sequence of successive front extractions from the
pre-call buffer, and the final buffer is the pre-call content minus those
first N command records (modulo the leading separators and whitespace each
extraction compacts) - or cleared, exactly when one further extraction
finds no command and consumes the whole remainder; (2) for an ARBITRARY
handler, each dispatching step shifts the buffer first: the handler is
applied to the remainder after the extracted command, and the loop
continues on the handler's result, so a handler calling
`execAppend`/`execInsert` sees only the pending remainder plus its own
additions; (3) scenario 8.3: with `bomb` registered to `execAppend("ping")`
and the buffer primed with `execAppend("bomb; bomb")`, running with
`ExecAll` dispatches exactly bomb, bomb, ping, ping and empties the
buffer. -/
theorem C1_execBufferedCommands :
    (∀ env maxCount buf,
      (execBufferedCommands env neutralHandler maxCount buf).overflowHit = false →
      (execBufferedCommands env neutralHandler maxCount buf).reentrantHit = false →
      (execBufferedCommands env neutralHandler maxCount buf).executed
          = (execBufferedCommands env neutralHandler maxCount buf).dispatched.length ∧
      (execBufferedCommands env neutralHandler maxCount buf).dispatched
          = cmdSeq env (execBufferedCommands env neutralHandler maxCount buf).executed buf ∧
      ((execBufferedCommands env neutralHandler maxCount buf).buffer
          = dropCmds env (execBufferedCommands env neutralHandler maxCount buf).executed buf ∨
        ((execBufferedCommands env neutralHandler maxCount buf).buffer = [] ∧
          (extractNextCommand env (dropCmds env
            (execBufferedCommands env neutralHandler maxCount buf).executed buf)).1 = [] ∧
          (extractNextCommand env (dropCmds env
            (execBufferedCommands env neutralHandler maxCount buf).executed buf)).2.1 = []))) ∧
    (∀ env hd maxCount fuel buf n,
      (extractNextCommand env buf).1 ≠ [] →
      (extractNextCommand env buf).2.2 = false →
      ¬(n + 1 = 999999) →
      ¬(maxCount ≠ 4294967295 ∧ n + 1 = maxCount) →
      execBufLoop env hd maxCount (fuel + 1) buf n =
        ⟨(execBufLoop env hd maxCount fuel
            (hd (extractNextCommand env buf).1 (extractNextCommand env buf).2.1) (n + 1)).executed,
          (execBufLoop env hd maxCount fuel
            (hd (extractNextCommand env buf).1 (extractNextCommand env buf).2.1) (n + 1)).buffer,
          (extractNextCommand env buf).1 ::
            (execBufLoop env hd maxCount fuel
              (hd (extractNextCommand env buf).1 (extractNextCommand env buf).2.1) (n + 1)).dispatched,
          (execBufLoop env hd maxCount fuel
            (hd (extractNextCommand env buf).1 (extractNextCommand env buf).2.1) (n + 1)).overflowHit,
          (execBufLoop env hd maxCount fuel
            (hd (extractNextCommand env buf).1 (extractNextCommand env buf).2.1) (n + 1)).reentrantHit⟩) ∧
    execBufferedCommands none bombHandler 4294967295 bombBuffer =
      ⟨4, [],
        [['b', 'o', 'm', 'b'], ['b', 'o', 'm', 'b'], ['p', 'i', 'n', 'g'], ['p', 'i', 'n', 'g']],
        false, false⟩ := by
  refine ⟨?_, ?_, by decide⟩
  · intro env maxCount buf hov hre
    by_cases hg : buf = [] ∨ maxCount = 0
    · rw [execBufferedCommands, if_pos hg]
      exact ⟨rfl, rfl, Or.inl rfl⟩
    · rw [execBufferedCommands, if_neg hg] at hov hre ⊢
      obtain ⟨l1, l2, l3⟩ := execBufLoop_neutral_spec env maxCount 999999 buf 0 hov hre
      have hlen : (execBufLoop env neutralHandler maxCount 999999 buf 0).executed
          = (execBufLoop env neutralHandler maxCount 999999 buf 0).dispatched.length := by
        omega
      refine ⟨hlen, ?_, ?_⟩
      · rw [hlen]
        exact l2
      · rw [hlen]
        exact l3
  · intro env hd maxCount fuel buf n h1 h2 h3 h4
    exact execBufLoop_step env hd maxCount fuel buf n h1 h2 h3 h4

/-- Witness for C1: the accounting part applied to the buffer `"x;"` with
budget 1, and the shift-before-dispatch step applied to the buffer `"y;"`. -/
theorem C1_witness :
    ((execBufferedCommands none neutralHandler 1 ['x', ';']).executed
        = (execBufferedCommands none neutralHandler 1 ['x', ';']).dispatched.length ∧
      (execBufferedCommands none neutralHandler 1 ['x', ';']).dispatched
          = cmdSeq none (execBufferedCommands none neutralHandler 1 ['x', ';']).executed ['x', ';'] ∧
      ((execBufferedCommands none neutralHandler 1 ['x', ';']).buffer
          = dropCmds none (execBufferedCommands none neutralHandler 1 ['x', ';']).executed ['x', ';'] ∨
        ((execBufferedCommands none neutralHandler 1 ['x', ';']).buffer = [] ∧
          (extractNextCommand none (dropCmds none
            (execBufferedCommands none neutralHandler 1 ['x', ';']).executed ['x', ';'])).1 = [] ∧
          (extractNextCommand none (dropCmds none
            (execBufferedCommands none neutralHandler 1 ['x', ';']).executed ['x', ';'])).2.1 = []))) ∧
    execBufLoop none neutralHandler 5 (3 + 1) ['y', ';'] 0 =
      ⟨(execBufLoop none neutralHandler 5 3
          (neutralHandler (extractNextCommand none ['y', ';']).1
            (extractNextCommand none ['y', ';']).2.1) (0 + 1)).executed,
        (execBufLoop none neutralHandler 5 3
          (neutralHandler (extractNextCommand none ['y', ';']).1
            (extractNextCommand none ['y', ';']).2.1) (0 + 1)).buffer,
        (extractNextCommand none ['y', ';']).1 ::
          (execBufLoop none neutralHandler 5 3
            (neutralHandler (extractNextCommand none ['y', ';']).1
              (extractNextCommand none ['y', ';']).2.1) (0 + 1)).dispatched,
        (execBufLoop none neutralHandler 5 3
          (neutralHandler (extractNextCommand none ['y', ';']).1
            (extractNextCommand none ['y', ';']).2.1) (0 + 1)).overflowHit,
        (execBufLoop none neutralHandler 5 3
          (neutralHandler (extractNextCommand none ['y', ';']).1
            (extractNextCommand none ['y', ';']).2.1) (0 + 1)).reentrantHit⟩ :=
  ⟨C1_execBufferedCommands.1 none 1 ['x', ';'] (by decide) (by decide),
    C1_execBufferedCommands.2.1 none neutralHandler 5 3 ['y', ';'] 0
      (by decide) (by decide) (by decide) (by decide)⟩

end LibCfg
